import Mathlib

/-!
Verification development for the points-to analysis of LLVMSlicer
(`src/src/PointsTo/PointsTo.cpp`).

The C++ source is shallowly embedded: IR values become an inductive
`Value` carrying the queries the analysis makes of the IR layer
(kind, type, layout sizes), points-to sets become duplicate-free lists
of pointees in insertion order (a deterministic refinement of
`std::set` iteration), and the `std::map` of points-to sets becomes an
association list whose `operator[]` semantics (`ensureKey` +
`lookupSet` + `writeKey`) mirrors default-constructing a missing
entry.  Helper predicates that live in headers absent from the
repository snapshot (`../Languages/LLVM.h`, `PointsTo.h`) are modelled
from the specification and documented as such at their definition.
-/

namespace PointsTo

/-- Types of the IR, abstracted to what `CallMaps` queries: whether a
type is a pointer type, and type identity.  Distinct ids denote
distinct types. -/
inductive Ty where
  | ptrT (id : Nat)
  | intT (id : Nat)
deriving DecidableEq

/-- Embedding of `Type::isPointerTy`. -/
def Ty.isPointerTy : Ty → Bool
  | .ptrT _ => true
  | _ => false

/-- The value kinds the analysis distinguishes via `isa<...>` casts.
Globals carry whether they have an initializer and the data layout's
alloc size of the initializer's type; allocas carry
`isArrayAllocation` and the alloc size of the allocated type (the two
layout queries made by `checkOffset`). -/
inductive VKind where
  | functionSym
  | nullPtr
  | globalVar (hasInit : Bool) (allocSize : Nat)
  | allocaInst (isArrayAlloc : Bool) (allocSize : Nat)
  | plain
deriving DecidableEq

/-- An IR value: a stable identity, a kind, and a type.  Two values
are the same iff their embeddings are equal, mirroring handle
equality. -/
structure Value where
  vid : Nat
  kind : VKind
  ty : Ty
deriving DecidableEq

/-- Modelled from the spec: `hasExtraReference` (from the missing
`Languages/LLVM.h`) holds for values that denote an address — globals,
stack allocations and function symbols. -/
def hasExtraReference (v : Value) : Bool :=
  match v.kind with
  | .functionSym => true
  | .globalVar _ _ => true
  | .allocaInst _ _ => true
  | _ => false

/-- Modelled from the spec: `isPointerValue` (from the missing
`Languages/LLVM.h`) holds when the value's type is a pointer type. -/
def isPointerValue (v : Value) : Bool := v.ty.isPointerTy

/-- Embedding of `isa<Function>(v)`. -/
def isFunctionVal (v : Value) : Bool :=
  match v.kind with
  | .functionSym => true
  | _ => false

/-- Embedding of `isa<ConstantPointerNull>(v)`. -/
def isNullVal (v : Value) : Bool :=
  match v.kind with
  | .nullPtr => true
  | _ => false

/-- Modelled from the spec: `elimConstExpr` (from the missing
`Languages/LLVM.h`) strips constant-expression wrappers.  The value
model contains no constant-expression wrappers, so it is the
identity. -/
def elimConstExpr (v : Value) : Value := v

/-- A pointee: `(value, offset)`, `PointsToSets::Pointee` of the
source.  Offsets are signed; `-1` is the "no projection" sentinel used
for keys. -/
abbrev Pointee := Value × Int

/-- A pointer key of the points-to map, structurally identical to a
pointee, as in the source (`PointsToSets::Pointer`). -/
abbrev PtrKey := Pointee

/-- A points-to set: the elements of the `std::set<Pointee>` in
iteration order.  Insertion order is used as the deterministic
iteration order of the embedding. -/
abbrev PTSet := List Pointee

/-- The points-to map `PointsToSets`: an association list from keys to
sets, mirroring `std::map<Pointer, PTSet>`. -/
abbrev PTMap := List (PtrKey × PTSet)

/-- Lookup of a key's set; missing keys read as the empty set (the
source reads sets only through references obtained from `operator[]`,
which default-constructs missing entries). -/
def lookupSet : PTMap → PtrKey → PTSet
  | [], _ => []
  | e :: rest, k => if e.1 = k then e.2 else lookupSet rest k

/-- Whether the map has an entry for `k`. -/
def hasKey : PTMap → PtrKey → Bool
  | [], _ => false
  | e :: rest, k => decide (e.1 = k) || hasKey rest k

/-- The key-creating half of `operator[]`: add an empty entry for `k`
if none exists. -/
def ensureKey (S : PTMap) (k : PtrKey) : PTMap :=
  if hasKey S k then S else S ++ [(k, [])]

/-- Overwrite the set stored for an existing key `k`. -/
def writeKey (S : PTMap) (k : PtrKey) (v : PTSet) : PTMap :=
  S.map (fun e => if e.1 = k then (k, v) else e)

/-- Embedding of `std::set<Pointee>::insert`: append the element if it
is not yet present. -/
def insertPtee (L : PTSet) (p : Pointee) : PTSet :=
  if p ∈ L then L else L ++ [p]

/-- Embedding of `std::copy(R.begin(), R.end(), inserter(L, ...))`. -/
def unionPtee (L R : PTSet) : PTSet := R.foldl insertPtee L

/-- One index step of a `getelementptr`, abstracted to what
`accumulateConstantOffset` queries: whether the operand is a constant
integer (with its sign-extended value), and for constant indices the
data-layout answer attached to the indexed type — the struct field
offset for a struct index or the element store size for a sequential
(array/vector) index. -/
inductive GepIdx where
  | nonconst
  | constStruct (v : Int) (fieldOff : Nat)
  | constSeq (v : Int) (storeSize : Nat)
  | constOther (v : Int)
deriving DecidableEq

/-- One iteration of the loop in `accumulateConstantOffset`: skip
non-constant and zero indices; a struct index adds its field offset; a
sequential index adds `index * storeSize` and marks the projection as
an array projection; other typed indices are skipped. -/
def accStep (acc : Int × Bool) (i : GepIdx) : Int × Bool :=
  match i with
  | .nonconst => acc
  | .constStruct v fieldOff => if v = 0 then acc else (acc.1 + fieldOff, acc.2)
  | .constSeq v storeSize => if v = 0 then acc else (acc.1 + v * storeSize, true)
  | .constOther _ => acc

/-- Embedding of `accumulateConstantOffset`: fold `accStep` over the
GEP's type-iterator triples, starting from offset `0`, not an array
projection. -/
def accumulateConstantOffset (idxs : List GepIdx) : Int × Bool :=
  idxs.foldl accStep (0, false)

/-- Conversion of a signed 64-bit sum to the unsigned 64-bit argument
of `checkOffset` (the source passes an `int64_t` where a `uint64_t`
parameter is declared, so negative sums wrap). -/
def toU64 (i : Int) : Nat := (i % (2 : Int) ^ 64).toNat

/-- Embedding of `checkOffset`: a pointee into a global with an
initializer, or into a non-array alloca, is rejected when the
(unsigned) offset sum reaches the object's alloc size. -/
def checkOffset (rv : Value) (sum : Int) : Bool :=
  match rv.kind with
  | .globalVar hasInit allocSize =>
      !(hasInit && decide (allocSize ≤ toU64 sum))
  | .allocaInst isArrayAlloc allocSize =>
      !(!isArrayAlloc && decide (allocSize ≤ toU64 sum))
  | _ => true

/-- Embedding of the `sameCount` loop in the GEP rule: count entries
of `L` whose first component is `v`, breaking out as soon as the count
reaches `5`. -/
def crowdCount : PTSet → Value → Nat → Nat
  | [], _, acc => acc
  | p :: ps, v, acc =>
    if p.1 = v then
      if acc + 1 ≥ 5 then acc + 1 else crowdCount ps v (acc + 1)
    else crowdCount ps v acc

/-- The crowding ("cropping") decision of the GEP rule: drop the entry
when the capped count is at least `3`. -/
def dropCrowd (L : PTSet) (v : Value) : Bool := decide (crowdCount L v 0 ≥ 3)

/-- The offset arithmetic the GEP rule performs on a surviving entry:
`rOff + off` (the source's `sum`), clamped below to `0`, then capped
at `64` when the projection is an array projection. -/
def gepSum (off : Int) (isArr : Bool) (rOff : Int) : Int :=
  let sum := rOff + off
  let sum1 := if sum < 0 then 0 else sum
  if isArr ∧ sum1 > 64 then 64 else sum1

/-- The body of the GEP rule's loop over `set(op,-1)` (continued):
dispatch of the four skip checks, then insertion of the clamped
pair. -/
def gepStep (off : Int) (isArr : Bool) (L : PTSet) (p : Pointee) : PTSet :=
  if p ∈ L then L
  else if off ≠ 0 ∧ (isFunctionVal p.1 || isNullVal p.1) = true then L
  else if checkOffset p.1 (p.2 + off) = false then L
  else if dropCrowd L p.1 = true then L
  else insertPtee L (p.1, gepSum off isArr p.2)

/-- Embedding of `applyRule` for `VAR = ALLOC`, `VAR = NULL` and
`VAR = &VAR`, which share one body: insert `(rval, 0)` into
`set(lval,-1)` and report whether the set grew. -/
def applyInsertZero (S : PTMap) (l r : Value) : PTMap × Bool :=
  let S1 := ensureKey S (l, -1)
  let L := lookupSet S1 (l, -1)
  let L2 := insertPtee L (r, 0)
  (writeKey S1 (l, -1) L2, decide (L.length ≠ L2.length))

/-- Embedding of `applyRule` for `VAR = VAR`: copy `set(rval,-1)` into
`set(lval,-1)`. -/
def applyAsgnVar (S : PTMap) (l r : Value) : PTMap × Bool :=
  let S1 := ensureKey S (l, -1)
  let S2 := ensureKey S1 (r, -1)
  let L := lookupSet S2 (l, -1)
  let R := lookupSet S2 (r, -1)
  let L2 := unionPtee L R
  (writeKey S2 (l, -1) L2, decide (L.length ≠ L2.length))

/-- Embedding of `applyRule` for `VAR = GEP(VAR)`: if the stripped
base operand has an extra reference, inject `(op, off)` directly;
otherwise run `gepStep` over the pairs of `set(op,-1)`. -/
def applyAsgnGep (S : PTMap) (l op : Value) (idxs : List GepIdx) : PTMap × Bool :=
  let S1 := ensureKey S (l, -1)
  let L := lookupSet S1 (l, -1)
  let acc := accumulateConstantOffset idxs
  if hasExtraReference op then
    let L2 := insertPtee L (op, acc.1)
    (writeKey S1 (l, -1) L2, decide (L.length ≠ L2.length))
  else
    let S2 := ensureKey S1 (op, -1)
    let R := lookupSet S2 (op, -1)
    let L2 := R.foldl (gepStep acc.1 acc.2) L
    (writeKey S2 (l, -1) L2, decide (L.length ≠ L2.length))

/-- The loop of the load rule `VAR = *VAR`: for each pointee `p` of
the right-hand side's set, union `set(p)` into the destination set
(reading through the map so that aliasing of the destination with a
`set(p)` behaves as in the source). -/
def loadLoop (dst : PtrKey) : PTMap → List Pointee → PTMap
  | S, [] => S
  | S, p :: ps =>
    let S1 := ensureKey S p
    let X := lookupSet S1 p
    let L := lookupSet S1 dst
    loadLoop dst (writeKey S1 dst (unionPtee L X)) ps

/-- Embedding of `applyRule` for `VAR = *VAR` (with the extra `idx`
parameter defaulted to `-1` at top level and supplied by the
`*VAR = *VAR` rule): the destination is `set(lval, idx)`. -/
def applyAsgnDrefVar (S : PTMap) (l : Value) (idx : Int) (r : Value) : PTMap × Bool :=
  let S1 := ensureKey S (l, idx)
  let S2 := ensureKey S1 (r, -1)
  let L := lookupSet S2 (l, idx)
  let R := lookupSet S2 (r, -1)
  let S3 := loadLoop (l, idx) S2 R
  (S3, decide (L.length ≠ (lookupSet S3 (l, idx)).length))

/-- The loop of the store rule `*VAR = VAR`: for each pointee `p` of
the left-hand side's set, union the (current) source set into
`set(p)`, accumulating per-target growth into the change flag. -/
def storeLoop (src : PtrKey) : PTMap → List Pointee → PTMap × Bool
  | S, [] => (S, false)
  | S, p :: ps =>
    let S1 := ensureKey S p
    let X := lookupSet S1 p
    let R := lookupSet S1 src
    let X2 := unionPtee X R
    let S2 := writeKey S1 p X2
    let rest := storeLoop src S2 ps
    (rest.1, decide (X.length ≠ X2.length) || rest.2)

/-- Embedding of `applyRule` for `*VAR = VAR`. -/
def applyDrefAsgnVar (S : PTMap) (l r : Value) : PTMap × Bool :=
  let S1 := ensureKey S (l, -1)
  let S2 := ensureKey S1 (r, -1)
  let Lsnap := lookupSet S2 (l, -1)
  storeLoop (r, -1) S2 Lsnap

/-- The loop shared by `*VAR = &VAR` and `*VAR = NULL`: insert the
single pointee `q` into `set(p)` for each pointee `p` of the left-hand
side's set. -/
def storeElemLoop (q : Pointee) : PTMap → List Pointee → PTMap × Bool
  | S, [] => (S, false)
  | S, p :: ps =>
    let S1 := ensureKey S p
    let X := lookupSet S1 p
    let X2 := insertPtee X q
    let S2 := writeKey S1 p X2
    let rest := storeElemLoop q S2 ps
    (rest.1, decide (X.length ≠ X2.length) || rest.2)

/-- Embedding of `applyRule` for `*VAR = &VAR` and `*VAR = NULL`:
insert `(rval, 0)` through every pointee of `set(lval,-1)`. -/
def applyDrefAsgnElem (S : PTMap) (l r : Value) : PTMap × Bool :=
  let S1 := ensureKey S (l, -1)
  let Lsnap := lookupSet S1 (l, -1)
  storeElemLoop (r, 0) S1 Lsnap

/-- The loop of `*VAR = *VAR`: for each pointee `(v, o)` of the
left-hand side's set, apply the load rule with destination
`set(v, o)`. -/
def drefDrefLoop (r : Value) : PTMap → List Pointee → PTMap × Bool
  | S, [] => (S, false)
  | S, p :: ps =>
    let res := applyAsgnDrefVar S p.1 p.2 r
    let rest := drefDrefLoop r res.1 ps
    (rest.1, res.2 || rest.2)

/-- Embedding of `applyRule` for `*VAR = *VAR`. -/
def applyDrefAsgnDrefVar (S : PTMap) (l r : Value) : PTMap × Bool :=
  let S1 := ensureKey S (l, -1)
  let Lsnap := lookupSet S1 (l, -1)
  drefDrefLoop r S1 Lsnap

/-- The rule language: the tagged variants of `RuleCode`.  The GEP
variant carries the stripped base operand and the index triples of the
`GetElementPtrInst` that the source recovers from the rule's rvalue by
`dyn_cast`. -/
inductive RuleCode where
  | varAsgnAlloc (l r : Value)
  | varAsgnNull (l r : Value)
  | varAsgnVar (l r : Value)
  | varAsgnGep (l op : Value) (idxs : List GepIdx)
  | varAsgnRefVar (l r : Value)
  | varAsgnDrefVar (l r : Value)
  | drefVarAsgnNull (l r : Value)
  | drefVarAsgnVar (l r : Value)
  | drefVarAsgnRefVar (l r : Value)
  | drefVarAsgnDrefVar (l r : Value)
  | dealloc (v : Value)
deriving DecidableEq

/-- Embedding of `applyRules`: dispatch on the rule tag.  `DEALLOC`
is a no-op. -/
def applyRuleCode (S : PTMap) : RuleCode → PTMap × Bool
  | .varAsgnAlloc l r => applyInsertZero S l r
  | .varAsgnNull l r => applyInsertZero S l r
  | .varAsgnVar l r => applyAsgnVar S l r
  | .varAsgnGep l op idxs => applyAsgnGep S l op idxs
  | .varAsgnRefVar l r => applyInsertZero S l r
  | .varAsgnDrefVar l r => applyAsgnDrefVar S l (-1) r
  | .drefVarAsgnNull l r => applyDrefAsgnElem S l r
  | .drefVarAsgnVar l r => applyDrefAsgnVar S l r
  | .drefVarAsgnRefVar l r => applyDrefAsgnElem S l r
  | .drefVarAsgnDrefVar l r => applyDrefAsgnDrefVar S l r
  | .dealloc _ => (S, false)

/-- One iteration of a solver pass: apply the next rule and OR its
change flag into the accumulator (`change |= applyRules(*i, S, DL)`). -/
def passStep (a : PTMap × Bool) (r : RuleCode) : PTMap × Bool :=
  let res := applyRuleCode a.1 r
  (res.1, a.2 || res.2)

/-- One pass of the fixed-point loop: apply every rule in program
order, OR-ing the change flags. -/
def passRules (P : List RuleCode) (S : PTMap) : PTMap × Bool :=
  P.foldl passStep (S, false)

/-- Embedding of `fixpoint`'s do-while loop, with explicit fuel; the
source's loop has no termination proof, so running out of fuel
returns `none`. -/
def fixpointAux : Nat → List RuleCode → PTMap → Option PTMap
  | 0, _, _ => none
  | n + 1, P, S =>
    let res := passRules P S
    if res.2 then fixpointAux n P res.1 else some res.1

/-- Embedding of `pruneByType`: erase every entry whose key's value is
a function symbol (the type-match pass is compiled out by `#if 0` in
the source and is not performed). -/
def pruneByType (S : PTMap) : PTMap :=
  S.filter (fun e => !isFunctionVal e.1.1)

/-- Embedding of `computePointsToSets`: `pruneByType` after
`fixpoint`. -/
def computePointsToSets (fuel : Nat) (P : List RuleCode) (S : PTMap) : Option PTMap :=
  (fixpointAux fuel P S).map pruneByType

/-- A function type: return type, parameter types, and whether it is
variadic. -/
structure FunTy where
  ret : Ty
  params : List Ty
  varArg : Bool
deriving DecidableEq

/-- Embedding of `CallMaps::compatibleTypes`: two pointer types are
always compatible (bitcast-tolerant over-approximation); otherwise the
types must be identical. -/
def compatibleTypes (t1 t2 : Ty) : Bool :=
  if t1.isPointerTy && t2.isPointerTy then true
  else decide (t1 = t2)

/-- Embedding of `CallMaps::compatibleFunTypes`: parameter counts must
agree when neither type is variadic, return types must be compatible,
and the common prefix of the parameter lists must be pointwise
compatible. -/
def compatibleFunTypes (f1 f2 : FunTy) : Bool :=
  if !f1.varArg && !f2.varArg && decide (f1.params.length ≠ f2.params.length) then
    false
  else if !compatibleTypes f1.ret f2.ret then
    false
  else
    (f1.params.zip f2.params).all (fun pr => compatibleTypes pr.1 pr.2)

/-- A function of the module, abstracted to what the call matcher
queries: its value, its function type, its formal arguments, whether
it is only a declaration, and the intrinsic classification
(`memoryManStuff` / `isMemoryAllocation`, modelled from the spec as
flags since `Languages/LLVM.h` is absent from the snapshot). -/
structure FunData where
  fv : Value
  fty : FunTy
  formals : List Value
  isDecl : Bool
  memMan : Bool
  isAlloc : Bool
deriving DecidableEq

/-- A call site: the call instruction's own value, the actual
arguments, and the callee prototype (`getCalleePrototype`). -/
structure CallData where
  cv : Value
  args : List Value
  proto : FunTy
deriving DecidableEq

/-- Embedding of `CallMaps::argPassRuleCode`: a constant-null source
always yields `VAR = NULL`; otherwise the four-case extra-reference
scheme chooses copy, load, address-of, or copy. -/
def argPassRuleCode (l r : Value) : RuleCode :=
  if isNullVal r then .varAsgnNull l r
  else if hasExtraReference l then
    if hasExtraReference r then .varAsgnVar l r else .varAsgnDrefVar l r
  else
    if hasExtraReference r then .varAsgnRefVar l r else .varAsgnVar l r

/-- Embedding of the direct-call `CallMaps::collectCallRuleCodes(c, f,
out)`.  The `warned` counter models the function-local `static
unsigned warned`; the returned `Bool` is whether the vararg diagnostic
was printed by this invocation.  Memory-management intrinsics other
than allocation emit nothing; allocation emits `VAR = ALLOC` naming
the call instruction; otherwise one argument-passing rule is emitted
per pointer-typed declared formal paired with its actual, and a
warning fires when actuals outnumber formals while the counter is
still below `3` (the counter increments on every such excess). -/
def collectCallRuleCodesDirect (c : CallData) (f : FunData) (warned : Nat) :
    List RuleCode × Nat × Bool :=
  if f.memMan && !f.isAlloc then ([], warned, false)
  else if f.isAlloc then ([RuleCode.varAsgnAlloc c.cv c.cv], warned, false)
  else
    let rules := (f.formals.zip c.args).filterMap
      (fun pr => if isPointerValue pr.1 then
          some (argPassRuleCode pr.1 (elimConstExpr pr.2))
        else none)
    if f.formals.length < c.args.length then
      (rules, warned + 1, decide (warned < 3))
    else
      (rules, warned, false)

/-- A run of direct-call collections threading the `warned` counter,
recording whether each call printed the vararg diagnostic. -/
def collectRunFlags : List (CallData × FunData) → Nat → List Bool
  | [], _ => []
  | cf :: rest, warned =>
    let res := collectCallRuleCodesDirect cf.1 cf.2 warned
    res.2.2 :: collectRunFlags rest res.2.1

/-- The module events `CallMaps::buildCallMaps` reacts to, in walk
order: a function of the module (inserted into FM keyed by its return
type when it is a definition), a store whose value operand is a
function symbol (inserted into FM when the symbol is classified as
memory-management stuff; function symbols always have an extra
reference), and a store of any other value (for which
`memoryManStuff` is false, so nothing is inserted). -/
inductive ModEvent where
  | defFun (f : FunData)
  | storeFun (f : FunData)
  | storeOther (v : Value)
deriving DecidableEq

/-- Embedding of the FM-building part of `CallMaps::buildCallMaps`:
the multimap's entries in insertion order. -/
def buildFM : List ModEvent → List (Ty × FunData)
  | [] => []
  | .defFun f :: rest =>
      (if f.isDecl then [] else [(f.fty.ret, f)]) ++ buildFM rest
  | .storeFun f :: rest =>
      (if f.memMan then [(f.fty.ret, f)] else []) ++ buildFM rest
  | .storeOther _ :: rest => buildFM rest

/-- Embedding of `FM.lower_bound(retTy) .. FM.upper_bound(retTy)`: the
multimap entries whose key equals `retTy`, in insertion order. -/
def lookupFM (FM : List (Ty × FunData)) (retTy : Ty) : List (Ty × FunData) :=
  FM.filter (fun e => decide (e.1 = retTy))

/-- Embedding of the indirect-call `CallMaps::collectCallRuleCodes(c,
out)`: walk the equal-range of the callee prototype's return type and
apply the direct-call treatment to every signature-compatible
function. -/
def collectCallRuleCodesIndirect (FM : List (Ty × FunData)) (c : CallData)
    (warned : Nat) : List RuleCode × Nat :=
  (lookupFM FM c.proto.ret).foldl
    (fun acc e =>
      if compatibleFunTypes c.proto e.2.fty then
        let res := collectCallRuleCodesDirect c e.2 acc.2
        (acc.1 ++ res.1, res.2.1)
      else acc)
    ([], warned)

/-- The candidate callees the indirect-call lookup hands to the
direct-call treatment, in order. -/
def indirectCandidates (FM : List (Ty × FunData)) (c : CallData) : List FunData :=
  ((lookupFM FM c.proto.ret).filter
    (fun e => compatibleFunTypes c.proto e.2.fty)).map (fun e => e.2)

/-- Sequential direct-call treatment of a list of callees, threading
the `warned` counter — the effect the indirect-call path has on each
candidate. -/
def runDirectSeq (c : CallData) (fs : List FunData) (w : Nat) : List RuleCode × Nat :=
  fs.foldl
    (fun acc f =>
      let res := collectCallRuleCodesDirect c f acc.2
      (acc.1 ++ res.1, res.2.1))
    ([], w)

/-- A node of the pointer-equivalence graph: its owned elements and
its outgoing edges.  Nodes are identified by their position in the
graph's node list (the embedding's stand-in for the heap address of a
`Node *`); edges store such identifiers. -/
structure GNode where
  elems : List Pointee
  edges : List Nat
deriving DecidableEq

/-- The pointer-equivalence graph (`PointsToGraph`): its nodes in
creation order. -/
structure PTGraph where
  nodes : List GNode
deriving DecidableEq

/-- The pluggable category predicate (`PointsToCategories::
areInSameCategory`). -/
abbrev Category := Pointee → Pointee → Bool

/-- Modelled from the spec: the default category relation is equality
of the value handle. -/
def handleCategory : Category := fun a b => decide (a.1 = b.1)

/-- Embedding of `PointsToGraph::findNode`: the first node (in
creation order) whose element set contains `p`. -/
def findNodeAux (p : Pointee) : List GNode → Nat → Option Nat
  | [], _ => none
  | n :: rest, i => if p ∈ n.elems then some i else findNodeAux p rest (i + 1)

/-- The node stored under identifier `i` (total via a default empty
node never produced by the operations). -/
def getNode (g : PTGraph) (i : Nat) : GNode := g.nodes.getD i (GNode.mk [] [])

/-- Embedding of `PointsToGraph::shouldAddTo`: scan the root's
outgoing edges for a successor whose first element is in the same
category as `p` (one element suffices because a node is homogeneous in
its category). -/
def shouldAddTo (cat : Category) (g : PTGraph) (root : Nat) (p : Pointee) : Option Nat :=
  (getNode g root).edges.find? (fun e =>
    match (getNode g e).elems.head? with
    | some q => cat q p
    | none => false)

/-- Embedding of `Node::insert` (a `std::set` insert): returns the new
node and whether the element was newly added. -/
def nodeInsertElem (n : GNode) (p : Pointee) : GNode × Bool :=
  if p ∈ n.elems then (n, false) else ({ n with elems := n.elems ++ [p] }, true)

/-- Embedding of `Node::addNeighbour` (a `std::set` insert of an
edge): returns the new node and whether the edge was newly added. -/
def nodeAddEdge (n : GNode) (t : Nat) : GNode × Bool :=
  if t ∈ n.edges then (n, false) else ({ n with edges := n.edges ++ [t] }, true)

/-- In-place update of the node stored at position `i`. -/
def modListAt {α : Type} : List α → Nat → (α → α) → List α
  | [], _, _ => []
  | a :: rest, 0, f => f a :: rest
  | a :: rest, n + 1, f => a :: modListAt rest n f

/-- Embedding of `PointsToGraph::insert(Pointer, Pointee)` after the
pointer's node `fromIdx` has been found or created: (2) if a successor
accepts the location's category, insert the location there, reporting
whether it was new; (3) else if some node already contains the
location, add an edge to it (the flag stays `false`, as in the source,
where the result of `addNeighbour` is discarded); (4) else create a
node for the location, add the edge, and report `true`. -/
def ptgInsertFrom (cat : Category) (g1 : PTGraph) (fromIdx : Nat) (loc : Pointee) :
    PTGraph × Bool :=
  match shouldAddTo cat g1 fromIdx loc with
  | some t =>
      (PTGraph.mk (modListAt g1.nodes t
          (fun _ => (nodeInsertElem (getNode g1 t) loc).1)),
        (nodeInsertElem (getNode g1 t) loc).2)
  | none =>
    match findNodeAux loc g1.nodes 0 with
    | some t =>
        (PTGraph.mk (modListAt g1.nodes fromIdx (fun n => (nodeAddEdge n t).1)), false)
    | none =>
        (PTGraph.mk (modListAt (g1.nodes ++ [GNode.mk [loc] []]) fromIdx
            (fun n => (nodeAddEdge n g1.nodes.length).1)),
          true)

/-- Embedding of `PointsToGraph::insert(Pointer, Pointee)` (entry):
(1) find or create the node containing the pointer, then continue
with `ptgInsertFrom`.  Creating the pointer's node does not touch the
change flag, as in the source. -/
def ptgInsert (cat : Category) (g : PTGraph) (p : Pointee) (loc : Pointee) :
    PTGraph × Bool :=
  match findNodeAux p g.nodes 0 with
  | some i => ptgInsertFrom cat g i loc
  | none =>
      ptgInsertFrom cat (PTGraph.mk (g.nodes ++ [GNode.mk [p] []]))
        g.nodes.length loc

/-- The insert operation as the specification words it: the same four
steps, but returning whether the graph changed. -/
def ptgInsertSpec (cat : Category) (g : PTGraph) (p : Pointee) (loc : Pointee) :
    PTGraph × Bool :=
  let g2 := (ptgInsert cat g p loc).1
  (g2, decide (g2 ≠ g))

/-- Well-formedness of a graph: every edge points at an existing
node.  The graph operations preserve this; it is assumed where a
theorem must dereference an edge. -/
def wfGraph (g : PTGraph) : Prop :=
  ∀ n ∈ g.nodes, ∀ e ∈ n.edges, e < g.nodes.length

instance (g : PTGraph) : Decidable (wfGraph g) := by
  unfold wfGraph
  infer_instance

/-- A plain pointer-typed value used by the C1 example inputs. -/
def c1v : Value := ⟨11, .plain, .ptrT 0⟩

/-- The destination (lvalue) of the C1 example GEP rule. -/
def c1l : Value := ⟨12, .plain, .ptrT 0⟩

/-- The base operand of the C1 example GEP rule (no extra
reference). -/
def c1op : Value := ⟨13, .plain, .ptrT 0⟩

/-- The C1 counterexample map: the destination set already holds
`(c1v, 0)`, which is also the only pair of the base's set. -/
def c1S : PTMap := [((c1l, -1), [(c1v, 0)]), ((c1op, -1), [(c1v, 0)])]

/-- The C1 example GEP indices: one sequential index contributing
offset `4` and marking the projection as an array projection. -/
def c1idxs : List GepIdx := [.constSeq 1 4]

/-- The C1 witness map: only the base's set is populated. -/
def c1wS : PTMap := [((c1op, -1), [(c1v, 0)])]

/-- A pointee value for the C6 examples. -/
def c6x : Value := ⟨21, .plain, .ptrT 0⟩

/-- A pointer value for the C6 examples. -/
def c6y : Value := ⟨22, .plain, .ptrT 0⟩

/-- The C6 counterexample graph: one node holding `(c6x, 0)` and no
edges. -/
def c6g : PTGraph := PTGraph.mk [GNode.mk [(c6x, 0)] []]

/-- The pointer-typed formal of the C9 example callee. -/
def c9formal : Value := ⟨31, .plain, .ptrT 0⟩

/-- The first actual argument of the C9 example call. -/
def c9arg1 : Value := ⟨32, .plain, .ptrT 0⟩

/-- The excess (second) actual argument of the C9 example call. -/
def c9arg2 : Value := ⟨33, .plain, .ptrT 0⟩

/-- The C9 example callee: one pointer-typed formal, not variadic, not
an intrinsic. -/
def c9f : FunData :=
  ⟨⟨30, .functionSym, .ptrT 9⟩, ⟨.intT 0, [.ptrT 0], false⟩, [c9formal],
    false, false, false⟩

/-- The C9 example call site: two actual arguments. -/
def c9c : CallData :=
  ⟨⟨34, .plain, .intT 0⟩, [c9arg1, c9arg2], ⟨.intT 0, [.ptrT 0], false⟩⟩

/-- Semantic equality of points-to maps: every key reads the same set
(missing keys read as empty). -/
def mapEqv (S T : PTMap) : Prop := ∀ k, lookupSet S k = lookupSet T k

/-- The destination of the C8 witness rule. -/
def c8l : Value := ⟨41, .plain, .ptrT 0⟩

/-- The null value of the C8 witness rule. -/
def c8r : Value := ⟨42, .nullPtr, .ptrT 0⟩

/-- The C8 witness program: a single `VAR = NULL` rule. -/
def c8P : List RuleCode := [.varAsgnNull c8l c8r]

/-- A map already at fixed point for `c8P`. -/
def c8S : PTMap := [((c8l, -1), [(c8r, 0)])]

/-- The destination of the C10 witness constraint. -/
def c10l : Value := ⟨51, .plain, .ptrT 0⟩

/-- The constant-null source of the C10 witness constraint. -/
def c10r : Value := ⟨52, .nullPtr, .ptrT 0⟩

/-- The C10 witness program. -/
def c10P : List RuleCode := [.varAsgnNull c10l c10r]

/-- A global (extra reference) projected at struct offset `100` in the
C2 counterexample. -/
def c2op1 : Value := ⟨61, .globalVar false 0, .ptrT 0⟩

/-- A global (extra reference) projected at sequential offset `-8` in
the C2 counterexample. -/
def c2op2 : Value := ⟨62, .globalVar false 0, .ptrT 0⟩

/-- The first GEP destination of the C2 counterexample. -/
def c2l1 : Value := ⟨63, .plain, .ptrT 0⟩

/-- The second GEP destination of the C2 counterexample. -/
def c2l2 : Value := ⟨64, .plain, .ptrT 0⟩

/-- The value stored through `c2l2` in the C2 counterexample. -/
def c2rv : Value := ⟨65, .plain, .ptrT 0⟩

/-- The C2 counterexample program: a struct projection of offset `100`
into an extra-reference base, a sequential projection of offset `-8`
into another, and a store through the latter destination (which turns
the negative-offset pointee into a map key). -/
def c2P : List RuleCode :=
  [.varAsgnGep c2l1 c2op1 [.constStruct 1 100],
   .varAsgnGep c2l2 c2op2 [.constSeq (-2) 4],
   .drefVarAsgnRefVar c2l2 c2rv]

/-- The destination of the C2 witness program. -/
def c2wl : Value := ⟨66, .plain, .ptrT 0⟩

/-- The extra-reference base of the C2 witness program. -/
def c2wg : Value := ⟨67, .globalVar false 0, .ptrT 0⟩

/-- The C2 witness program: one in-proviso GEP rule (nonnegative
struct offset on an extra-reference base). -/
def c2wP : List RuleCode := [.varAsgnGep c2wl c2wg [.constStruct 1 8]]

/-- The offset discipline the solver actually maintains: every map key
carries offset `-1` or a nonnegative offset, and every stored pointee
carries a nonnegative offset. -/
def MapOK (S : PTMap) : Prop :=
  ∀ e ∈ S, (e.1.2 = -1 ∨ 0 ≤ e.1.2) ∧ ∀ p ∈ e.2, 0 ≤ p.2

/-- Check of one rule for the amended C2 proviso: a GEP rule whose
base operand has an extra reference must contribute a nonnegative
accumulated constant offset (the source inserts that offset
unclamped); every other rule is unconstrained. -/
def gepRuleOK : RuleCode → Bool
  | .varAsgnGep _ op idxs =>
      !hasExtraReference op || decide (0 ≤ (accumulateConstantOffset idxs).1)
  | _ => true

/-- The proviso of the amended C2, over a whole program. -/
def GepOK (P : List RuleCode) : Prop := ∀ r ∈ P, gepRuleOK r = true

instance (S : PTMap) : Decidable (MapOK S) := by
  unfold MapOK
  infer_instance

instance (P : List RuleCode) : Decidable (GepOK P) := by
  unfold GepOK
  infer_instance

theorem lookupSet_nil (k : PtrKey) : lookupSet [] k = [] := rfl

theorem hasKey_append (S T : PTMap) (k : PtrKey) :
    hasKey (S ++ T) k = (hasKey S k || hasKey T k) := by
  induction S with
  | nil => simp [hasKey]
  | cons e rest ih => simp [hasKey, ih, Bool.or_assoc]

theorem lookupSet_eq_nil_of_not_hasKey (S : PTMap) (k : PtrKey)
    (h : hasKey S k = false) : lookupSet S k = [] := by
  induction S with
  | nil => rfl
  | cons e rest ih =>
    simp only [hasKey, Bool.or_eq_false_iff, decide_eq_false_iff_not] at h
    simp only [lookupSet, if_neg h.1]
    exact ih h.2

theorem lookupSet_append (S T : PTMap) (k : PtrKey) :
    lookupSet (S ++ T) k =
      if hasKey S k then lookupSet S k else lookupSet T k := by
  induction S with
  | nil => simp [hasKey, lookupSet]
  | cons e rest ih =>
    by_cases he : e.1 = k
    · simp [lookupSet, hasKey, he]
    · simp only [List.cons_append, lookupSet, if_neg he, hasKey, decide_eq_false he,
        Bool.false_or]
      exact ih

theorem lookupSet_ensureKey (S : PTMap) (k k' : PtrKey) :
    lookupSet (ensureKey S k) k' = lookupSet S k' := by
  unfold ensureKey
  split
  · rfl
  · rename_i h
    rw [lookupSet_append]
    split
    · rfl
    · rename_i h2
      rw [lookupSet_eq_nil_of_not_hasKey S k' (by simpa using h2)]
      by_cases hk : k = k' <;> simp [lookupSet, hk]

theorem hasKey_ensureKey_self (S : PTMap) (k : PtrKey) :
    hasKey (ensureKey S k) k = true := by
  unfold ensureKey
  split
  · assumption
  · simp [hasKey_append, hasKey]

theorem hasKey_ensureKey_mono (S : PTMap) (k k' : PtrKey)
    (h : hasKey S k' = true) : hasKey (ensureKey S k) k' = true := by
  unfold ensureKey
  split
  · exact h
  · simp [hasKey_append, h]

theorem hasKey_writeKey (S : PTMap) (k k' : PtrKey) (v : PTSet) :
    hasKey (writeKey S k v) k' = hasKey S k' := by
  induction S with
  | nil => rfl
  | cons e rest ih =>
    by_cases he : e.1 = k
    · simp only [writeKey, List.map_cons, if_pos he, hasKey] at *
      rw [ih, he]
    · simp only [writeKey, List.map_cons, if_neg he, hasKey] at *
      rw [ih]

theorem lookupSet_writeKey_self (S : PTMap) (k : PtrKey) (v : PTSet)
    (h : hasKey S k = true) : lookupSet (writeKey S k v) k = v := by
  induction S with
  | nil => simp [hasKey] at h
  | cons e rest ih =>
    simp only [hasKey, Bool.or_eq_true, decide_eq_true_eq] at h
    by_cases he : e.1 = k
    · simp [writeKey, List.map_cons, if_pos he, lookupSet]
    · simp only [writeKey, List.map_cons, if_neg he] at *
      rw [lookupSet, if_neg he]
      rcases h with h | h
      · exact absurd h he
      · exact ih h

theorem lookupSet_writeKey_ne (S : PTMap) (k k' : PtrKey) (v : PTSet)
    (h : k' ≠ k) : lookupSet (writeKey S k v) k' = lookupSet S k' := by
  induction S with
  | nil => rfl
  | cons e rest ih =>
    by_cases he : e.1 = k
    · have h1 : ¬ (k = k') := fun hc => h hc.symm
      have h2 : ¬ (e.1 = k') := fun hc => h (by rw [← hc, he])
      simp only [writeKey, List.map_cons, if_pos he] at *
      rw [lookupSet, if_neg h1, lookupSet, if_neg h2]
      exact ih
    · by_cases he2 : e.1 = k'
      · simp [writeKey, List.map_cons, if_neg he, lookupSet, if_pos he2]
      · simp only [writeKey, List.map_cons, if_neg he, lookupSet, if_neg he2] at *
        exact ih

theorem writeKey_not_hasKey (S : PTMap) (k : PtrKey) (v : PTSet)
    (h : hasKey S k = false) : writeKey S k v = S := by
  induction S with
  | nil => rfl
  | cons e rest ih =>
    simp only [hasKey, Bool.or_eq_false_iff, decide_eq_false_iff_not] at h
    simp only [writeKey, List.map_cons, if_neg h.1] at *
    rw [ih h.2]

/-- Reading a key just written through `ensureKey` + `writeKey`. -/
theorem lookupSet_write_ensure (S : PTMap) (k k' : PtrKey) (v : PTSet) :
    lookupSet (writeKey (ensureKey S k) k v) k' =
      if k' = k then v else lookupSet S k' := by
  split
  · rename_i h
    subst h
    exact lookupSet_writeKey_self _ _ _ (hasKey_ensureKey_self S _)
  · rename_i h
    rw [lookupSet_writeKey_ne _ _ _ _ h, lookupSet_ensureKey]

theorem mem_insertPtee (L : PTSet) (p q : Pointee) :
    q ∈ insertPtee L p ↔ q ∈ L ∨ q = p := by
  unfold insertPtee
  split
  · rename_i h
    constructor
    · exact Or.inl
    · rintro (hq | rfl) <;> assumption
  · simp

theorem insertPtee_eq_self_iff (L : PTSet) (p : Pointee) :
    insertPtee L p = L ↔ p ∈ L := by
  unfold insertPtee
  split
  · simp_all
  · rename_i h
    constructor
    · intro he
      have := congrArg List.length he
      simp at this
    · intro hc
      exact absurd hc h

theorem insertPtee_exists_ext (L : PTSet) (p : Pointee) :
    ∃ t, insertPtee L p = L ++ t := by
  unfold insertPtee
  split
  · exact ⟨[], by simp⟩
  · exact ⟨[p], rfl⟩

theorem foldl_exists_ext {α : Type} (f : PTSet → α → PTSet)
    (hf : ∀ L a, ∃ t, f L a = L ++ t) :
    ∀ (R : List α) (L : PTSet), ∃ t, R.foldl f L = L ++ t := by
  intro R
  induction R with
  | nil => exact fun L => ⟨[], by simp⟩
  | cons a rest ih =>
    intro L
    obtain ⟨t1, h1⟩ := hf L a
    obtain ⟨t2, h2⟩ := ih (f L a)
    refine ⟨t1 ++ t2, ?_⟩
    rw [List.foldl_cons, h2, h1, List.append_assoc]

theorem unionPtee_exists_ext (L R : PTSet) :
    ∃ t, unionPtee L R = L ++ t :=
  foldl_exists_ext insertPtee insertPtee_exists_ext R L

theorem append_eq_self_of_length {α : Type} (L t : List α)
    (h : (L ++ t).length = L.length) : L ++ t = L := by
  have h2 : L.length + t.length = L.length := by
    rw [← List.length_append]
    exact h
  have h3 : t.length = 0 := by omega
  rw [List.length_eq_zero.mp h3, List.append_nil]

theorem mem_unionPtee (L R : PTSet) (q : Pointee) :
    q ∈ unionPtee L R ↔ q ∈ L ∨ q ∈ R := by
  induction R generalizing L with
  | nil => simp [unionPtee]
  | cons a rest ih =>
    simp only [unionPtee, List.foldl_cons] at *
    rw [ih (insertPtee L a), mem_insertPtee]
    simp only [List.mem_cons]
    tauto

theorem unionPtee_eq_self_imp (L R : PTSet)
    (h : (unionPtee L R).length = L.length) : unionPtee L R = L := by
  obtain ⟨t, ht⟩ := unionPtee_exists_ext L R
  rw [ht] at h ⊢
  exact append_eq_self_of_length L t h

theorem zip_all_iff {α β : Type} (p : α × β → Bool) :
    ∀ (l1 : List α) (l2 : List β),
      ((l1.zip l2).all p = true ↔
        ∀ (i : Nat) (h1 : i < l1.length) (h2 : i < l2.length),
          p (l1.get ⟨i, h1⟩, l2.get ⟨i, h2⟩) = true) := by
  intro l1
  induction l1 with
  | nil => intro l2; simp
  | cons a rest ih =>
    intro l2
    cases l2 with
    | nil => simp
    | cons b l2r =>
      simp only [List.zip_cons_cons, List.all_cons, Bool.and_eq_true, ih l2r]
      constructor
      · rintro ⟨hab, hrest⟩ i h1 h2
        match i with
        | 0 => exact hab
        | j + 1 =>
          exact hrest j (Nat.lt_of_succ_lt_succ h1) (Nat.lt_of_succ_lt_succ h2)
      · intro h
        refine ⟨h 0 (by simp) (by simp), fun j hj1 hj2 => ?_⟩
        exact h (j + 1) (Nat.succ_lt_succ hj1) (Nat.succ_lt_succ hj2)

/-- C4: `compatibleTypes(t1, t2)` holds iff both types are pointer
types or the types are identical; `compatibleFunTypes(f1, f2)` holds
iff the return types are compatible, the parameter counts are equal
whenever neither function type is variadic, and every positional
parameter in the common prefix of the parameter lists is pointwise
compatible. -/
theorem c4_type_compatibility (t1 t2 : Ty) (f1 f2 : FunTy) :
    (compatibleTypes t1 t2 = true ↔
      (t1.isPointerTy = true ∧ t2.isPointerTy = true) ∨ t1 = t2) ∧
    (compatibleFunTypes f1 f2 = true ↔
      compatibleTypes f1.ret f2.ret = true ∧
      (f1.varArg = false → f2.varArg = false →
        f1.params.length = f2.params.length) ∧
      (∀ (i : Nat) (h1 : i < f1.params.length) (h2 : i < f2.params.length),
        compatibleTypes (f1.params.get ⟨i, h1⟩) (f2.params.get ⟨i, h2⟩) = true)) := by
  constructor
  · unfold compatibleTypes
    split
    · rename_i h
      simp only [Bool.and_eq_true] at h
      simp [h]
    · rename_i h
      simp only [Bool.and_eq_true] at h
      constructor
      · intro he
        exact Or.inr (by simpa using he)
      · rintro (hp | rfl)
        · exact absurd hp h
        · simp
  · unfold compatibleFunTypes
    split
    · rename_i h
      simp only [Bool.and_eq_true, Bool.not_eq_true', decide_eq_true_eq] at h
      constructor
      · intro hf
        exact absurd hf (by simp)
      · rintro ⟨-, hlen, -⟩
        exact absurd (hlen h.1.1 h.1.2) h.2
    · rename_i h
      simp only [Bool.and_eq_true, Bool.not_eq_true', decide_eq_true_eq, not_and] at h
      split
      · rename_i hr
        simp only [Bool.not_eq_true'] at hr
        constructor
        · intro hf
          exact absurd hf (by simp)
        · rintro ⟨hret, -, -⟩
          rw [hr] at hret
          exact absurd hret (by simp)
      · rename_i hr
        simp only [Bool.not_eq_true', Bool.not_eq_false] at hr
        rw [zip_all_iff]
        constructor
        · intro hall
          exact ⟨hr, fun h1 h2 => by_contra (fun hne => by simp [h1, h2, hne] at h),
            hall⟩
        · rintro ⟨-, -, hall⟩
          exact hall

theorem crowdCount_eq_min (v : Value) :
    ∀ (ps : PTSet) (acc : Nat), acc < 5 →
      crowdCount ps v acc =
        min (acc + ps.countP (fun q => decide (q.1 = v))) 5 := by
  intro ps
  induction ps with
  | nil =>
    intro acc hacc
    simp only [crowdCount, List.countP_nil]
    omega
  | cons p rest ih =>
    intro acc hacc
    by_cases hp : p.1 = v
    · have hcnt : (p :: rest).countP (fun q => decide (q.1 = v)) =
          rest.countP (fun q => decide (q.1 = v)) + 1 := by
        rw [List.countP_cons, decide_eq_true hp]
        simp
      rw [hcnt]
      simp only [crowdCount, if_pos hp]
      by_cases h5 : acc + 1 ≥ 5
      · rw [if_pos h5]
        omega
      · rw [if_neg h5, ih (acc + 1) (by omega)]
        omega
    · have hcnt : (p :: rest).countP (fun q => decide (q.1 = v)) =
          rest.countP (fun q => decide (q.1 = v)) := by
        rw [List.countP_cons, decide_eq_false hp]
        simp
      rw [hcnt]
      simp only [crowdCount, if_neg hp]
      exact ih acc hacc

/-- C5: an entry is dropped by the crowding rule exactly when the
destination set (at the moment the entry is processed) already holds
at least `3` pairs whose first component equals the entry's value; the
`sameCount` loop's early exit at `5` does not change the decision.
Concretely, when an entry survives the earlier skip checks (not
already present, not a function/null under nonzero offset, within the
object per `checkOffset`), `gepStep` leaves the set unchanged if the
true count is at least `3` and otherwise inserts the clamped pair. -/
theorem c5_crowding (L : PTSet) (v : Value) (off : Int) (isArr : Bool)
    (p : Pointee)
    (hv : p.1 = v)
    (hmem : p ∉ L)
    (hfn : ¬(off ≠ 0 ∧ (isFunctionVal p.1 || isNullVal p.1) = true))
    (hco : checkOffset p.1 (p.2 + off) = true) :
    (dropCrowd L v = true ↔ 3 ≤ L.countP (fun q => decide (q.1 = v))) ∧
    (3 ≤ L.countP (fun q => decide (q.1 = v)) → gepStep off isArr L p = L) ∧
    (¬ 3 ≤ L.countP (fun q => decide (q.1 = v)) →
      gepStep off isArr L p =
        insertPtee L (p.1,
          if isArr ∧ (if p.2 + off < 0 then 0 else p.2 + off) > 64 then 64
          else if p.2 + off < 0 then 0 else p.2 + off)) := by
  have hmin : crowdCount L v 0 = min (L.countP (fun q => decide (q.1 = v))) 5 := by
    rw [crowdCount_eq_min v L 0 (by omega)]
    omega
  have hiff : dropCrowd L v = true ↔ 3 ≤ L.countP (fun q => decide (q.1 = v)) := by
    unfold dropCrowd
    rw [hmin]
    simp only [ge_iff_le, decide_eq_true_eq]
    omega
  refine ⟨hiff, ?_, ?_⟩
  · intro hcnt
    unfold gepStep
    rw [if_neg hmem, if_neg hfn, if_neg (by simp [hco]), if_pos (hv ▸ hiff.mpr hcnt)]
  · intro hcnt
    unfold gepStep
    rw [if_neg hmem, if_neg hfn, if_neg (by simp [hco])]
    rw [if_neg (hv ▸ fun hc => hcnt (hiff.mp hc))]
    rfl

/-- Witness for `c5_crowding` at a concrete input: a destination set
already holding three pairs on the same value drops the incoming
entry, and a set holding two such pairs takes it. -/
theorem c5_crowding_witness :
    (let v : Value := ⟨1, .plain, .ptrT 0⟩
     let L : PTSet := [(v, 0), (v, 4), (v, 8)]
     gepStep 4 true L (v, 12) = L) ∧
    (let v : Value := ⟨1, .plain, .ptrT 0⟩
     let L2 : PTSet := [(v, 0), (v, 4)]
     gepStep 4 true L2 (v, 12) = insertPtee L2 (v, 16)) := by
  constructor
  · exact (c5_crowding _ _ 4 true (⟨1, .plain, .ptrT 0⟩, 12) rfl
      (by decide) (by decide) (by decide)).2.1 (by decide)
  · exact ((c5_crowding _ _ 4 true (⟨1, .plain, .ptrT 0⟩, 12) rfl
      (by decide) (by decide) (by decide)).2.2 (by decide)).trans (by decide)

/-- C7: `pruneByType` removes exactly the map entries whose key's
value is a function symbol, leaving every other entry (key and set)
unchanged — the `#if 0` type-match pass never runs — and
`computePointsToSets` is exactly this pruning applied to the solver's
fixed point. -/
theorem c7_pruneByType (S : PTMap) :
    (∀ e : PtrKey × PTSet,
      e ∈ pruneByType S ↔ e ∈ S ∧ isFunctionVal e.1.1 = false) ∧
    (∀ (fuel : Nat) (P : List RuleCode) (S0 : PTMap),
      computePointsToSets fuel P S0 = (fixpointAux fuel P S0).map pruneByType) := by
  constructor
  · intro e
    unfold pruneByType
    rw [List.mem_filter, Bool.not_eq_true']
  · intro fuel P S0
    rfl

theorem dropCrowd_iff (L : PTSet) (v : Value) :
    dropCrowd L v = true ↔ 3 ≤ L.countP (fun q => decide (q.1 = v)) := by
  unfold dropCrowd
  rw [crowdCount_eq_min v L 0 (by omega)]
  simp only [ge_iff_le, decide_eq_true_eq]
  omega

theorem gepStep_no_skip (off : Int) (ia : Bool) (L : PTSet) (p : Pointee)
    (hmem : p ∉ L)
    (hfn : ¬(off ≠ 0 ∧ (isFunctionVal p.1 || isNullVal p.1) = true))
    (hco : checkOffset p.1 (p.2 + off) = true)
    (hdc : dropCrowd L p.1 = false) :
    gepStep off ia L p = insertPtee L (p.1, gepSum off ia p.2) := by
  unfold gepStep gepSum
  rw [if_neg hmem, if_neg hfn, if_neg (by simp [hco]), if_neg (by simp [hdc])]

theorem gepStep_exists_ext (off : Int) (ia : Bool) (L : PTSet) (p : Pointee) :
    ∃ t, gepStep off ia L p = L ++ t := by
  unfold gepStep
  split
  · exact ⟨[], by simp⟩
  · split
    · exact ⟨[], by simp⟩
    · split
      · exact ⟨[], by simp⟩
      · split
        · exact ⟨[], by simp⟩
        · exact insertPtee_exists_ext _ _

theorem mem_foldl_gepStep (off : Int) (ia : Bool) (ps : List Pointee)
    (L : PTSet) (q : Pointee) (h : q ∈ L) :
    q ∈ ps.foldl (gepStep off ia) L := by
  obtain ⟨t, ht⟩ := foldl_exists_ext _ (gepStep_exists_ext off ia) ps L
  rw [ht]
  exact List.mem_append_left _ h

/-- C1 fails on the code at a concrete input: the single pair
`(c1v, 0)` of `set(op,-1)` meets none of the claim's three skip
conditions (its value is neither a function nor null, `checkOffset`
accepts it, and the destination holds only one pair on `c1v`), the
claim's clamped sum is `4`, yet `(c1v, 4)` is not inserted — the
source's "disable recursive structures" check skips the entry because
the exact pair `(c1v, 0)` is already in the destination set. -/
theorem c1_counterexample :
    hasExtraReference c1op = false ∧
    lookupSet c1S (c1op, -1) = [(c1v, 0)] ∧
    (accumulateConstantOffset c1idxs).1 = 4 ∧
    (accumulateConstantOffset c1idxs).2 = true ∧
    isFunctionVal c1v = false ∧ isNullVal c1v = false ∧
    checkOffset c1v (0 + 4) = true ∧
    (lookupSet c1S (c1l, -1)).countP (fun q => decide (q.1 = c1v)) = 1 ∧
    gepSum 4 true 0 = 4 ∧
    (c1v, (4 : Int)) ∉ lookupSet ((applyAsgnGep c1S c1l c1op c1idxs).1) (c1l, -1) := by
  decide

/-- C1 as amended: when the base operand of a `VAR = GEP(VAR)` rule
has no extra reference, every pair `(Rval, rOff)` of `set(op,-1)` that
is not skipped is inserted as `(Rval, gepSum)` into `set(L,-1)`, where
the skip conditions are the claim's three — function-or-null value
under a nonzero accumulated offset, an out-of-object sum per
`checkOffset` (which compares the sum as an unsigned 64-bit value),
crowding (`≥ 3` pairs on the value, counted against the destination
set as already extended by the earlier pairs of this application) —
plus a fourth the source applies first: the exact pair `(Rval, rOff)`
is already present in the destination set. -/
theorem c1_amended (S : PTMap) (l op : Value) (idxs : List GepIdx)
    (pre post : PTSet) (p : Pointee)
    (hop : hasExtraReference op = false)
    (hsplit : lookupSet S (op, -1) = pre ++ p :: post)
    (hmem : p ∉ pre.foldl
      (gepStep (accumulateConstantOffset idxs).1 (accumulateConstantOffset idxs).2)
      (lookupSet S (l, -1)))
    (hfn : ¬((accumulateConstantOffset idxs).1 ≠ 0 ∧
      (isFunctionVal p.1 || isNullVal p.1) = true))
    (hco : checkOffset p.1 (p.2 + (accumulateConstantOffset idxs).1) = true)
    (hcrowd : (pre.foldl
      (gepStep (accumulateConstantOffset idxs).1 (accumulateConstantOffset idxs).2)
      (lookupSet S (l, -1))).countP (fun q => decide (q.1 = p.1)) < 3) :
    (p.1, gepSum (accumulateConstantOffset idxs).1 (accumulateConstantOffset idxs).2 p.2)
      ∈ lookupSet ((applyAsgnGep S l op idxs).1) (l, -1) := by
  have hres : (applyAsgnGep S l op idxs).1 =
      writeKey (ensureKey (ensureKey S (l, -1)) (op, -1)) (l, -1)
        ((lookupSet S (op, -1)).foldl
          (gepStep (accumulateConstantOffset idxs).1 (accumulateConstantOffset idxs).2)
          (lookupSet S (l, -1))) := by
    unfold applyAsgnGep
    rw [if_neg (by simp [hop])]
    simp only [lookupSet_ensureKey]
  have hk : hasKey (ensureKey (ensureKey S (l, -1)) (op, -1)) (l, -1) = true :=
    hasKey_ensureKey_mono _ _ _ (hasKey_ensureKey_self S _)
  rw [hres, lookupSet_writeKey_self _ _ _ hk, hsplit, List.foldl_append,
    List.foldl_cons]
  have hdc : dropCrowd (pre.foldl
      (gepStep (accumulateConstantOffset idxs).1 (accumulateConstantOffset idxs).2)
      (lookupSet S (l, -1))) p.1 = false := by
    cases hd : dropCrowd (pre.foldl
        (gepStep (accumulateConstantOffset idxs).1 (accumulateConstantOffset idxs).2)
        (lookupSet S (l, -1))) p.1 with
    | false => rfl
    | true => exact absurd ((dropCrowd_iff _ _).mp hd) (by omega)
  rw [gepStep_no_skip _ _ _ _ hmem hfn hco hdc]
  exact mem_foldl_gepStep _ _ _ _ _ ((mem_insertPtee _ _ _).mpr (Or.inr rfl))

/-- Witness for `c1_amended` at a concrete input: with an empty
destination set and `set(op,-1) = [(c1v, 0)]`, the amended rule
inserts `(c1v, 4)`. -/
theorem c1_amended_witness :
    (c1v, (4 : Int)) ∈ lookupSet ((applyAsgnGep c1wS c1l c1op c1idxs).1) (c1l, -1) := by
  have h := c1_amended c1wS c1l c1op c1idxs [] [] (c1v, 0)
    (by decide) (by decide) (by decide) (by decide) (by decide) (by decide)
  have h2 : ((c1v, (0 : Int)).1,
      gepSum (accumulateConstantOffset c1idxs).1 (accumulateConstantOffset c1idxs).2
        (c1v, (0 : Int)).2) = (c1v, (4 : Int)) := by decide
  rw [← h2]
  exact h

theorem modListAt_length {α : Type} :
    ∀ (l : List α) (i : Nat) (f : α → α), (modListAt l i f).length = l.length := by
  intro l
  induction l with
  | nil => intro i f; rfl
  | cons a rest ih =>
    intro i f
    cases i with
    | zero => rfl
    | succ j => simp [modListAt, ih]

theorem modListAt_getD {α : Type} (d : α) :
    ∀ (l : List α) (i : Nat) (f : α → α), i < l.length →
      (modListAt l i f).getD i d = f (l.getD i d) := by
  intro l
  induction l with
  | nil => intro i f h; simp at h
  | cons a rest ih =>
    intro i f h
    cases i with
    | zero => rfl
    | succ j =>
      simp only [modListAt, List.getD_cons_succ]
      exact ih j f (by simpa using h)

theorem modListAt_ne {α : Type} (d : α) (l : List α) (i : Nat) (f : α → α)
    (hi : i < l.length) (hne : f (l.getD i d) ≠ l.getD i d) :
    modListAt l i f ≠ l := by
  intro he
  apply hne
  rw [← modListAt_getD d l i f hi, he]

theorem findNodeAux_some (p : Pointee) :
    ∀ (l : List GNode) (j i : Nat), findNodeAux p l j = some i →
      ∃ k, k < l.length ∧ i = j + k ∧ p ∈ (l.getD k (GNode.mk [] [])).elems := by
  intro l
  induction l with
  | nil => intro j i h; simp [findNodeAux] at h
  | cons n rest ih =>
    intro j i h
    unfold findNodeAux at h
    split at h
    · rename_i hmem
      injection h with h2
      exact ⟨0, by simp, by omega, by simpa using hmem⟩
    · obtain ⟨k, hk, hik, hpk⟩ := ih (j + 1) i h
      exact ⟨k + 1, by simpa using hk, by omega, by simpa using hpk⟩

theorem getNode_mem (g : PTGraph) (i : Nat) (h : i < g.nodes.length) :
    getNode g i ∈ g.nodes := by
  unfold getNode
  rw [List.getD_eq_getElem _ _ h]
  exact List.getElem_mem _

theorem nodeInsertElem_true (n : GNode) (q : Pointee)
    (h : (nodeInsertElem n q).2 = true) :
    q ∉ n.elems ∧ (nodeInsertElem n q).1 = { n with elems := n.elems ++ [q] } := by
  unfold nodeInsertElem at *
  split at h
  · simp at h
  · rename_i hq
    exact ⟨hq, by rw [if_neg hq]⟩

/-- C6 fails on the code at a concrete input: inserting a fresh
pointer with a location already present in an existing node creates a
new node and adds an edge — the graph changes — yet the function
returns `false`. -/
theorem c6_counterexample :
    (ptgInsert handleCategory c6g (c6y, 0) (c6x, 0)).2 = false ∧
    (ptgInsert handleCategory c6g (c6y, 0) (c6x, 0)).1 ≠ c6g := by
  decide

/-- C6 as amended: `insert(pointer, location)` performs the claim's
four steps (its graph action agrees with the specification-worded
`ptgInsertSpec`), and the returned flag is sound but not complete: it
returns `true` only when the graph changed (a location newly inserted
into a successor node in step (2), or a fresh location node created in
step (4)); creating the pointer's node in step (1) and adding an edge
to a pre-existing node in step (3) go unreported, so `false` does not
imply the graph is unchanged. -/
theorem c6_amended (cat : Category) (g : PTGraph) (p loc : Pointee) :
    (ptgInsert cat g p loc).1 = (ptgInsertSpec cat g p loc).1 ∧
    (wfGraph g → (ptgInsert cat g p loc).2 = true →
      (ptgInsert cat g p loc).1 ≠ g) := by
  refine ⟨rfl, ?_⟩
  intro hwf hflag
  cases hfind : findNodeAux p g.nodes 0 with
  | some i =>
    have he : ptgInsert cat g p loc = ptgInsertFrom cat g i loc := by
      unfold ptgInsert
      rw [hfind]
    rw [he] at hflag ⊢
    obtain ⟨k, hk, hik, -⟩ := findNodeAux_some p g.nodes 0 i hfind
    have hi : i < g.nodes.length := by omega
    cases hsat : shouldAddTo cat g i loc with
    | some t =>
      have he2 : ptgInsertFrom cat g i loc =
          (PTGraph.mk (modListAt g.nodes t
              (fun _ => (nodeInsertElem (getNode g t) loc).1)),
            (nodeInsertElem (getNode g t) loc).2) := by
        unfold ptgInsertFrom
        rw [hsat]
      rw [he2] at hflag ⊢
      obtain ⟨hnew, hnode⟩ := nodeInsertElem_true _ _ hflag
      have ht : t ∈ (getNode g i).edges := by
        unfold shouldAddTo at hsat
        exact List.mem_of_find?_eq_some hsat
      have htl : t < g.nodes.length := hwf (getNode g i) (getNode_mem g i hi) t ht
      intro hEq
      have hnodes : modListAt g.nodes t
          (fun _ => (nodeInsertElem (getNode g t) loc).1) = g.nodes := by
        have := congrArg PTGraph.nodes hEq
        simpa using this
      refine modListAt_ne (GNode.mk [] []) g.nodes t _ htl ?_ hnodes
      rw [hnode]
      intro hc
      have := congrArg (fun n => n.elems.length) hc
      simp only [List.length_append, List.length_singleton] at this
      have hgn : getNode g t = g.nodes.getD t (GNode.mk [] []) := rfl
      rw [← hgn] at this
      omega
    | none =>
      cases hloc : findNodeAux loc g.nodes 0 with
      | some t =>
        have he2 : ptgInsertFrom cat g i loc =
            (PTGraph.mk (modListAt g.nodes i (fun n => (nodeAddEdge n t).1)),
              false) := by
          unfold ptgInsertFrom
          rw [hsat, hloc]
        rw [he2] at hflag
        simp at hflag
      | none =>
        have he2 : ptgInsertFrom cat g i loc =
            (PTGraph.mk (modListAt (g.nodes ++ [GNode.mk [loc] []]) i
                (fun n => (nodeAddEdge n g.nodes.length).1)),
              true) := by
          unfold ptgInsertFrom
          rw [hsat, hloc]
        rw [he2]
        intro hEq
        have := congrArg (fun x => x.nodes.length) hEq
        simp only [modListAt_length, List.length_append, List.length_singleton]
          at this
        omega
  | none =>
    have he : ptgInsert cat g p loc =
        ptgInsertFrom cat (PTGraph.mk (g.nodes ++ [GNode.mk [p] []]))
          g.nodes.length loc := by
      unfold ptgInsert
      rw [hfind]
    rw [he] at hflag ⊢
    have hsat : shouldAddTo cat (PTGraph.mk (g.nodes ++ [GNode.mk [p] []]))
        g.nodes.length loc = none := by
      unfold shouldAddTo
      have hget : getNode (PTGraph.mk (g.nodes ++ [GNode.mk [p] []]))
          g.nodes.length = GNode.mk [p] [] := by
        unfold getNode
        rw [List.getD_eq_getElem _ _ (by simp)]
        simp
      rw [hget]
      rfl
    cases hloc : findNodeAux loc (g.nodes ++ [GNode.mk [p] []]) 0 with
    | some t =>
      have he2 : ptgInsertFrom cat (PTGraph.mk (g.nodes ++ [GNode.mk [p] []]))
          g.nodes.length loc =
          (PTGraph.mk (modListAt (g.nodes ++ [GNode.mk [p] []]) g.nodes.length
              (fun n => (nodeAddEdge n t).1)),
            false) := by
        unfold ptgInsertFrom
        rw [hsat, hloc]
      rw [he2] at hflag
      simp at hflag
    | none =>
      have he2 : ptgInsertFrom cat (PTGraph.mk (g.nodes ++ [GNode.mk [p] []]))
          g.nodes.length loc =
          (PTGraph.mk (modListAt ((g.nodes ++ [GNode.mk [p] []]) ++ [GNode.mk [loc] []])
              g.nodes.length
              (fun n => (nodeAddEdge n (g.nodes ++ [GNode.mk [p] []]).length).1)),
            true) := by
        unfold ptgInsertFrom
        rw [hsat, hloc]
      rw [he2]
      intro hEq
      have := congrArg (fun x => x.nodes.length) hEq
      simp only [modListAt_length, List.length_append, List.length_singleton]
        at this
      omega

/-- Witness for `c6_amended` at a concrete input: inserting into the
empty graph reports `true`, and the theorem concludes the graph
changed. -/
theorem c6_amended_witness :
    wfGraph (PTGraph.mk []) ∧
    (ptgInsert handleCategory (PTGraph.mk []) (c6y, 0) (c6x, 0)).2 = true ∧
    (ptgInsert handleCategory (PTGraph.mk []) (c6y, 0) (c6x, 0)).1 ≠ PTGraph.mk [] := by
  refine ⟨by decide, by decide, ?_⟩
  exact (c6_amended handleCategory (PTGraph.mk []) (c6y, 0) (c6x, 0)).2
    (by decide) (by decide)

theorem bool_eq_of_iff {a b : Bool} (h : a = true ↔ b = true) : a = b := by
  cases a <;> cases b <;> simp_all

theorem compatibleTypes_symm (t1 t2 : Ty) :
    compatibleTypes t1 t2 = compatibleTypes t2 t1 := by
  unfold compatibleTypes
  rw [Bool.and_comm]
  split
  · rfl
  · apply bool_eq_of_iff
    simp [eq_comm]

theorem compatibleFunTypes_symm (f1 f2 : FunTy) :
    compatibleFunTypes f1 f2 = compatibleFunTypes f2 f1 := by
  unfold compatibleFunTypes
  have hne : decide (f1.params.length ≠ f2.params.length) =
      decide (f2.params.length ≠ f1.params.length) := by
    simp [ne_comm]
  have hrt : compatibleTypes f1.ret f2.ret = compatibleTypes f2.ret f1.ret :=
    compatibleTypes_symm _ _
  have hall : (f1.params.zip f2.params).all (fun pr => compatibleTypes pr.1 pr.2) =
      (f2.params.zip f1.params).all (fun pr => compatibleTypes pr.1 pr.2) := by
    apply bool_eq_of_iff
    rw [zip_all_iff, zip_all_iff]
    constructor
    · intro h i h1 h2
      rw [compatibleTypes_symm]
      exact h i h2 h1
    · intro h i h1 h2
      rw [compatibleTypes_symm]
      exact h i h2 h1
  rw [hne, hrt, hall, Bool.and_comm (!f1.varArg) (!f2.varArg)]

theorem buildFM_key :
    ∀ (evts : List ModEvent) (t : Ty) (f : FunData),
      (t, f) ∈ buildFM evts → t = f.fty.ret := by
  intro evts
  induction evts with
  | nil => intro t f h; simp [buildFM] at h
  | cons e rest ih =>
    intro t f h
    cases e with
    | defFun g =>
      unfold buildFM at h
      rw [List.mem_append] at h
      rcases h with h | h
      · split at h <;> simp_all
      · exact ih t f h
    | storeFun g =>
      unfold buildFM at h
      rw [List.mem_append] at h
      rcases h with h | h
      · split at h <;> simp_all
      · exact ih t f h
    | storeOther v =>
      unfold buildFM at h
      exact ih t f h

theorem collectIndirect_foldl_eq (c : CallData) :
    ∀ (l : List (Ty × FunData)) (acc : List RuleCode × Nat),
      l.foldl (fun acc e =>
          if compatibleFunTypes c.proto e.2.fty then
            let res := collectCallRuleCodesDirect c e.2 acc.2
            (acc.1 ++ res.1, res.2.1)
          else acc) acc =
        ((l.filter (fun e => compatibleFunTypes c.proto e.2.fty)).map
            (fun e => e.2)).foldl
          (fun acc f =>
            let res := collectCallRuleCodesDirect c f acc.2
            (acc.1 ++ res.1, res.2.1)) acc := by
  intro l
  induction l with
  | nil => intro acc; rfl
  | cons e rest ih =>
    intro acc
    by_cases hc : compatibleFunTypes c.proto e.2.fty = true
    · simp only [List.foldl_cons, List.filter_cons]
      rw [if_pos hc, if_pos hc, List.map_cons, List.foldl_cons]
      exact ih _
    · simp only [List.foldl_cons, List.filter_cons]
      rw [if_neg hc, if_neg hc]
      exact ih _

/-- C3: at an indirect call site `c`, the candidate callees handed to
the direct-call treatment are exactly the functions registered in FM
whose declared return type is identical to the callee prototype's
return type and whose function type is signature-compatible with the
prototype; and the indirect-call collection is precisely the
sequential direct-call treatment of those candidates. -/
theorem c3_indirect_candidates (evts : List ModEvent) (c : CallData)
    (f : FunData) (w : Nat) :
    (f ∈ indirectCandidates (buildFM evts) c ↔
      ((f.fty.ret, f) ∈ buildFM evts ∧ f.fty.ret = c.proto.ret ∧
        compatibleFunTypes f.fty c.proto = true)) ∧
    collectCallRuleCodesIndirect (buildFM evts) c w =
      runDirectSeq c (indirectCandidates (buildFM evts) c) w := by
  constructor
  · constructor
    · intro hf
      unfold indirectCandidates lookupFM at hf
      obtain ⟨e, he, hef⟩ := List.mem_map.mp hf
      rw [List.mem_filter] at he
      obtain ⟨he1, hpred⟩ := he
      rw [List.mem_filter] at he1
      obtain ⟨heFM, hkey⟩ := he1
      have hkey2 : e.1 = c.proto.ret := by simpa using hkey
      have hk3 : e.1 = e.2.fty.ret := buildFM_key evts e.1 e.2 heFM
      subst hef
      refine ⟨?_, ?_, ?_⟩
      · rw [← hk3]
        exact heFM
      · rw [← hk3, hkey2]
      · rw [compatibleFunTypes_symm]
        exact hpred
    · rintro ⟨hmem, hret, hcompat⟩
      unfold indirectCandidates lookupFM
      refine List.mem_map.mpr ⟨(f.fty.ret, f), ?_, rfl⟩
      rw [List.mem_filter, List.mem_filter]
      refine ⟨⟨hmem, by simpa using hret⟩, ?_⟩
      rw [compatibleFunTypes_symm]
      exact hcompat
  · unfold collectCallRuleCodesIndirect runDirectSeq indirectCandidates
    exact collectIndirect_foldl_eq c (lookupFM (buildFM evts) c.proto.ret) ([], w)

theorem zip_take_len {α β : Type} :
    ∀ (l1 : List α) (l2 : List β), l1.zip l2 = l1.zip (l2.take l1.length) := by
  intro l1
  induction l1 with
  | nil => intro l2; rfl
  | cons a rest ih =>
    intro l2
    cases l2 with
    | nil => rfl
    | cons b l2r =>
      simp only [List.zip_cons_cons, List.length_cons, List.take_succ_cons]
      rw [← ih l2r]

theorem collectDirect_warn_facts (c : CallData) (f : FunData) (w : Nat) :
    ((collectCallRuleCodesDirect c f w).2.2 = true →
      w < 3 ∧ (collectCallRuleCodesDirect c f w).2.1 = w + 1) ∧
    ((collectCallRuleCodesDirect c f w).2.1 = w ∨
      (collectCallRuleCodesDirect c f w).2.1 = w + 1) := by
  unfold collectCallRuleCodesDirect
  split
  · refine ⟨?_, Or.inl rfl⟩
    intro h
    simp at h
  · split
    · refine ⟨?_, Or.inl rfl⟩
      intro h
      simp at h
    · split
      · refine ⟨?_, Or.inr rfl⟩
        intro h
        exact ⟨by simpa using h, rfl⟩
      · refine ⟨?_, Or.inl rfl⟩
        intro h
        simp at h

theorem collectRunFlags_count :
    ∀ (cs : List (CallData × FunData)) (w : Nat),
      (collectRunFlags cs w).count true + min w 3 ≤ 3 := by
  intro cs
  induction cs with
  | nil =>
    intro w
    simp only [collectRunFlags, List.count_nil]
    omega
  | cons cf rest ih =>
    intro w
    obtain ⟨hwarn, hstep⟩ := collectDirect_warn_facts cf.1 cf.2 w
    have hunfold : collectRunFlags (cf :: rest) w =
        (collectCallRuleCodesDirect cf.1 cf.2 w).2.2 ::
          collectRunFlags rest (collectCallRuleCodesDirect cf.1 cf.2 w).2.1 := rfl
    rw [hunfold]
    cases hfl : (collectCallRuleCodesDirect cf.1 cf.2 w).2.2 with
    | true =>
      obtain ⟨hw3, hw1⟩ := hwarn hfl
      rw [hw1, List.count_cons_self]
      have := ih (w + 1)
      omega
    | false =>
      rw [List.count_cons_of_ne (by simp)]
      rcases hstep with hs | hs <;> rw [hs]
      · have := ih w
        omega
      · have := ih (w + 1)
        omega

/-- C9: when a call passes more actuals than the callee (not a
memory-management intrinsic) declares formals, the emitted rules are
exactly one argument-passing rule per pointer-typed declared formal
paired with its actual (`zip` truncates at the formals, so the excess
arguments produce no rules); the diagnostic fires iff the run-wide
counter is still below `3`, the counter increments on every such
occurrence, and over any run that starts at counter `0` at most three
diagnostics are printed. -/
theorem c9_varargs (c : CallData) (f : FunData) (w : Nat)
    (cs : List (CallData × FunData))
    (hmm2 : f.memMan = false) (hal : f.isAlloc = false)
    (hex : f.formals.length < c.args.length) :
    (collectCallRuleCodesDirect c f w).1 =
      (f.formals.zip (c.args.take f.formals.length)).filterMap
        (fun pr => if isPointerValue pr.1 then
            some (argPassRuleCode pr.1 (elimConstExpr pr.2))
          else none) ∧
    ((collectCallRuleCodesDirect c f w).2.2 = true ↔ w < 3) ∧
    (collectCallRuleCodesDirect c f w).2.1 = w + 1 ∧
    (collectRunFlags cs 0).count true ≤ 3 := by
  have hbranch : collectCallRuleCodesDirect c f w =
      ((f.formals.zip c.args).filterMap
        (fun pr => if isPointerValue pr.1 then
            some (argPassRuleCode pr.1 (elimConstExpr pr.2))
          else none), w + 1, decide (w < 3)) := by
    unfold collectCallRuleCodesDirect
    rw [if_neg (by simp [hmm2]), if_neg (by simp [hal]), if_pos hex]
  rw [hbranch]
  refine ⟨?_, by simp, rfl, ?_⟩
  · rw [← zip_take_len]
  · have := collectRunFlags_count cs 0
    omega

/-- Witness for `c9_varargs` at a concrete input: a two-argument call
to a one-formal function emits exactly the one rule for the pointer
formal, warns, and bumps the counter. -/
theorem c9_varargs_witness :
    (collectCallRuleCodesDirect c9c c9f 0).1 =
      [argPassRuleCode c9formal c9arg1] ∧
    (collectCallRuleCodesDirect c9c c9f 0).2.2 = true ∧
    (collectCallRuleCodesDirect c9c c9f 0).2.1 = 1 := by
  obtain ⟨h1, h2, h3, -⟩ := c9_varargs c9c c9f 0 [] (by decide) (by decide)
    (by decide)
  refine ⟨?_, h2.mpr (by decide), h3⟩
  rw [h1]
  decide

theorem mapEqv_refl (S : PTMap) : mapEqv S S := fun _ => rfl

theorem mapEqv_symm {S T : PTMap} (h : mapEqv S T) : mapEqv T S :=
  fun k => (h k).symm

theorem mapEqv_trans {S T U : PTMap} (h1 : mapEqv S T) (h2 : mapEqv T U) :
    mapEqv S U := fun k => (h1 k).trans (h2 k)

theorem mapEqv_ensureKey (S : PTMap) (a : PtrKey) : mapEqv (ensureKey S a) S :=
  fun k => lookupSet_ensureKey S a k

theorem lookupSet_write_ensure2 (S : PTMap) (a b : PtrKey) (v : PTSet)
    (k : PtrKey) :
    lookupSet (writeKey (ensureKey (ensureKey S a) b) a v) k =
      if k = a then v else lookupSet S k := by
  have hk : hasKey (ensureKey (ensureKey S a) b) a = true :=
    hasKey_ensureKey_mono _ _ _ (hasKey_ensureKey_self S a)
  split
  · rename_i h
    subst h
    exact lookupSet_writeKey_self _ _ _ hk
  · rename_i h
    rw [lookupSet_writeKey_ne _ _ _ _ h, lookupSet_ensureKey, lookupSet_ensureKey]

theorem applyInsertZero_spec (S : PTMap) (l r : Value) :
    applyInsertZero S l r =
      (writeKey (ensureKey S (l, -1)) (l, -1)
          (insertPtee (lookupSet S (l, -1)) (r, 0)),
        decide ((lookupSet S (l, -1)).length ≠
          (insertPtee (lookupSet S (l, -1)) (r, 0)).length)) := by
  simp only [applyInsertZero, lookupSet_ensureKey]

theorem applyAsgnVar_spec (S : PTMap) (l r : Value) :
    applyAsgnVar S l r =
      (writeKey (ensureKey (ensureKey S (l, -1)) (r, -1)) (l, -1)
          (unionPtee (lookupSet S (l, -1)) (lookupSet S (r, -1))),
        decide ((lookupSet S (l, -1)).length ≠
          (unionPtee (lookupSet S (l, -1)) (lookupSet S (r, -1))).length)) := by
  simp only [applyAsgnVar, lookupSet_ensureKey]

theorem applyAsgnGep_spec_ref (S : PTMap) (l op : Value) (idxs : List GepIdx)
    (h : hasExtraReference op = true) :
    applyAsgnGep S l op idxs =
      (writeKey (ensureKey S (l, -1)) (l, -1)
          (insertPtee (lookupSet S (l, -1)) (op, (accumulateConstantOffset idxs).1)),
        decide ((lookupSet S (l, -1)).length ≠
          (insertPtee (lookupSet S (l, -1))
            (op, (accumulateConstantOffset idxs).1)).length)) := by
  simp only [applyAsgnGep, lookupSet_ensureKey, h, if_true]

theorem applyAsgnGep_spec_noref (S : PTMap) (l op : Value) (idxs : List GepIdx)
    (h : hasExtraReference op = false) :
    applyAsgnGep S l op idxs =
      (writeKey (ensureKey (ensureKey S (l, -1)) (op, -1)) (l, -1)
          ((lookupSet S (op, -1)).foldl
            (gepStep (accumulateConstantOffset idxs).1
              (accumulateConstantOffset idxs).2)
            (lookupSet S (l, -1))),
        decide ((lookupSet S (l, -1)).length ≠
          ((lookupSet S (op, -1)).foldl
            (gepStep (accumulateConstantOffset idxs).1
              (accumulateConstantOffset idxs).2)
            (lookupSet S (l, -1))).length)) := by
  simp only [applyAsgnGep, lookupSet_ensureKey, h, Bool.false_eq_true, if_false]

theorem applyAsgnDrefVar_spec (S : PTMap) (l : Value) (idx : Int) (r : Value) :
    applyAsgnDrefVar S l idx r =
      (loadLoop (l, idx) (ensureKey (ensureKey S (l, idx)) (r, -1))
          (lookupSet S (r, -1)),
        decide ((lookupSet S (l, idx)).length ≠
          (lookupSet (loadLoop (l, idx) (ensureKey (ensureKey S (l, idx)) (r, -1))
            (lookupSet S (r, -1))) (l, idx)).length)) := by
  simp only [applyAsgnDrefVar, lookupSet_ensureKey]

theorem applyDrefAsgnVar_spec (S : PTMap) (l r : Value) :
    applyDrefAsgnVar S l r =
      storeLoop (r, -1) (ensureKey (ensureKey S (l, -1)) (r, -1))
        (lookupSet S (l, -1)) := by
  simp only [applyDrefAsgnVar, lookupSet_ensureKey]

theorem applyDrefAsgnElem_spec (S : PTMap) (l r : Value) :
    applyDrefAsgnElem S l r =
      storeElemLoop (r, 0) (ensureKey S (l, -1)) (lookupSet S (l, -1)) := by
  simp only [applyDrefAsgnElem, lookupSet_ensureKey]

theorem applyDrefAsgnDrefVar_spec (S : PTMap) (l r : Value) :
    applyDrefAsgnDrefVar S l r =
      drefDrefLoop r (ensureKey S (l, -1)) (lookupSet S (l, -1)) := by
  simp only [applyDrefAsgnDrefVar, lookupSet_ensureKey]

theorem loadLoop_lookup_ne (dst : PtrKey) :
    ∀ (ps : List Pointee) (S : PTMap) (k : PtrKey), k ≠ dst →
      lookupSet (loadLoop dst S ps) k = lookupSet S k := by
  intro ps
  induction ps with
  | nil => intro S k h; rfl
  | cons p rest ih =>
    intro S k h
    have hstep : loadLoop dst S (p :: rest) =
        loadLoop dst (writeKey (ensureKey S p) dst
          (unionPtee (lookupSet (ensureKey S p) dst)
            (lookupSet (ensureKey S p) p))) rest := rfl
    rw [hstep, ih _ k h, lookupSet_writeKey_ne _ _ _ _ h, lookupSet_ensureKey]

theorem loadLoop_hasKey (dst : PtrKey) :
    ∀ (ps : List Pointee) (S : PTMap) (k : PtrKey), hasKey S k = true →
      hasKey (loadLoop dst S ps) k = true := by
  intro ps
  induction ps with
  | nil => intro S k h; exact h
  | cons p rest ih =>
    intro S k h
    have hstep : loadLoop dst S (p :: rest) =
        loadLoop dst (writeKey (ensureKey S p) dst
          (unionPtee (lookupSet (ensureKey S p) dst)
            (lookupSet (ensureKey S p) p))) rest := rfl
    rw [hstep]
    apply ih
    rw [hasKey_writeKey]
    exact hasKey_ensureKey_mono _ _ _ h

theorem loadLoop_dst_ext (dst : PtrKey) :
    ∀ (ps : List Pointee) (S : PTMap), hasKey S dst = true →
      ∃ t, lookupSet (loadLoop dst S ps) dst = lookupSet S dst ++ t := by
  intro ps
  induction ps with
  | nil => intro S h; exact ⟨[], by simp [loadLoop]⟩
  | cons p rest ih =>
    intro S h
    have hstep : loadLoop dst S (p :: rest) =
        loadLoop dst (writeKey (ensureKey S p) dst
          (unionPtee (lookupSet (ensureKey S p) dst)
            (lookupSet (ensureKey S p) p))) rest := rfl
    have hk1 : hasKey (ensureKey S p) dst = true := hasKey_ensureKey_mono _ _ _ h
    have hk2 : hasKey (writeKey (ensureKey S p) dst
        (unionPtee (lookupSet (ensureKey S p) dst)
          (lookupSet (ensureKey S p) p))) dst = true := by
      rw [hasKey_writeKey]
      exact hk1
    obtain ⟨t2, ht2⟩ := ih _ hk2
    obtain ⟨t1, ht1⟩ := unionPtee_exists_ext (lookupSet (ensureKey S p) dst)
      (lookupSet (ensureKey S p) p)
    refine ⟨t1 ++ t2, ?_⟩
    rw [hstep, ht2, lookupSet_writeKey_self _ _ _ hk1, ht1, lookupSet_ensureKey,
      List.append_assoc]

theorem loadLoop_congr (dst : PtrKey) :
    ∀ (ps : List Pointee) (S T : PTMap), mapEqv S T →
      hasKey S dst = true → hasKey T dst = true →
      mapEqv (loadLoop dst S ps) (loadLoop dst T ps) := by
  intro ps
  induction ps with
  | nil => intro S T he _ _; exact he
  | cons p rest ih =>
    intro S T he hkS hkT
    have hstepS : loadLoop dst S (p :: rest) =
        loadLoop dst (writeKey (ensureKey S p) dst
          (unionPtee (lookupSet (ensureKey S p) dst)
            (lookupSet (ensureKey S p) p))) rest := rfl
    have hstepT : loadLoop dst T (p :: rest) =
        loadLoop dst (writeKey (ensureKey T p) dst
          (unionPtee (lookupSet (ensureKey T p) dst)
            (lookupSet (ensureKey T p) p))) rest := rfl
    rw [hstepS, hstepT]
    have hv : unionPtee (lookupSet (ensureKey S p) dst)
        (lookupSet (ensureKey S p) p) =
        unionPtee (lookupSet (ensureKey T p) dst)
          (lookupSet (ensureKey T p) p) := by
      rw [lookupSet_ensureKey, lookupSet_ensureKey, lookupSet_ensureKey,
        lookupSet_ensureKey, he dst, he p]
    apply ih
    · intro k
      by_cases hkd : k = dst
      · subst hkd
        rw [lookupSet_writeKey_self _ _ _ (hasKey_ensureKey_mono _ _ _ hkS),
          lookupSet_writeKey_self _ _ _ (hasKey_ensureKey_mono _ _ _ hkT), hv]
      · rw [lookupSet_writeKey_ne _ _ _ _ hkd, lookupSet_writeKey_ne _ _ _ _ hkd,
          lookupSet_ensureKey, lookupSet_ensureKey]
        exact he k
    · rw [hasKey_writeKey]
      exact hasKey_ensureKey_mono _ _ _ hkS
    · rw [hasKey_writeKey]
      exact hasKey_ensureKey_mono _ _ _ hkT

theorem unionPtee_eq_of_length (X R : PTSet)
    (h : X.length = (unionPtee X R).length) : unionPtee X R = X := by
  exact unionPtee_eq_self_imp X R h.symm

theorem storeLoop_false (src : PtrKey) :
    ∀ (ps : List Pointee) (S : PTMap),
      (storeLoop src S ps).2 = false → mapEqv (storeLoop src S ps).1 S := by
  intro ps
  induction ps with
  | nil => intro S _; exact mapEqv_refl S
  | cons p rest ih =>
    intro S h
    have hstep : storeLoop src S (p :: rest) =
        ((storeLoop src (writeKey (ensureKey S p) p
            (unionPtee (lookupSet (ensureKey S p) p)
              (lookupSet (ensureKey S p) src))) rest).1,
          decide ((lookupSet (ensureKey S p) p).length ≠
            (unionPtee (lookupSet (ensureKey S p) p)
              (lookupSet (ensureKey S p) src)).length) ||
          (storeLoop src (writeKey (ensureKey S p) p
            (unionPtee (lookupSet (ensureKey S p) p)
              (lookupSet (ensureKey S p) src))) rest).2) := rfl
    rw [hstep] at h ⊢
    simp only [Bool.or_eq_false_iff, decide_eq_false_iff_not, not_not] at h
    obtain ⟨hlen, hrest⟩ := h
    have hXeq : unionPtee (lookupSet (ensureKey S p) p)
        (lookupSet (ensureKey S p) src) = lookupSet (ensureKey S p) p :=
      unionPtee_eq_of_length _ _ hlen
    have heqv : mapEqv (writeKey (ensureKey S p) p
        (unionPtee (lookupSet (ensureKey S p) p)
          (lookupSet (ensureKey S p) src))) S := by
      intro k
      by_cases hk : k = p
      · subst hk
        rw [lookupSet_writeKey_self _ _ _ (hasKey_ensureKey_self S k), hXeq,
          lookupSet_ensureKey]
      · rw [lookupSet_writeKey_ne _ _ _ _ hk, lookupSet_ensureKey]
    exact mapEqv_trans (ih _ hrest) heqv

theorem storeLoop_congr (src : PtrKey) :
    ∀ (ps : List Pointee) (S T : PTMap), mapEqv S T →
      (storeLoop src S ps).2 = (storeLoop src T ps).2 ∧
      mapEqv (storeLoop src S ps).1 (storeLoop src T ps).1 := by
  intro ps
  induction ps with
  | nil => intro S T he; exact ⟨rfl, he⟩
  | cons p rest ih =>
    intro S T he
    have hstepS : storeLoop src S (p :: rest) =
        ((storeLoop src (writeKey (ensureKey S p) p
            (unionPtee (lookupSet (ensureKey S p) p)
              (lookupSet (ensureKey S p) src))) rest).1,
          decide ((lookupSet (ensureKey S p) p).length ≠
            (unionPtee (lookupSet (ensureKey S p) p)
              (lookupSet (ensureKey S p) src)).length) ||
          (storeLoop src (writeKey (ensureKey S p) p
            (unionPtee (lookupSet (ensureKey S p) p)
              (lookupSet (ensureKey S p) src))) rest).2) := rfl
    have hstepT : storeLoop src T (p :: rest) =
        ((storeLoop src (writeKey (ensureKey T p) p
            (unionPtee (lookupSet (ensureKey T p) p)
              (lookupSet (ensureKey T p) src))) rest).1,
          decide ((lookupSet (ensureKey T p) p).length ≠
            (unionPtee (lookupSet (ensureKey T p) p)
              (lookupSet (ensureKey T p) src)).length) ||
          (storeLoop src (writeKey (ensureKey T p) p
            (unionPtee (lookupSet (ensureKey T p) p)
              (lookupSet (ensureKey T p) src))) rest).2) := rfl
    have hX : lookupSet (ensureKey S p) p = lookupSet (ensureKey T p) p := by
      rw [lookupSet_ensureKey, lookupSet_ensureKey]
      exact he p
    have hR : lookupSet (ensureKey S p) src = lookupSet (ensureKey T p) src := by
      rw [lookupSet_ensureKey, lookupSet_ensureKey]
      exact he src
    have heqv2 : mapEqv (writeKey (ensureKey S p) p
        (unionPtee (lookupSet (ensureKey S p) p)
          (lookupSet (ensureKey S p) src)))
        (writeKey (ensureKey T p) p
          (unionPtee (lookupSet (ensureKey T p) p)
            (lookupSet (ensureKey T p) src))) := by
      intro k
      by_cases hk : k = p
      · subst hk
        rw [lookupSet_writeKey_self _ _ _ (hasKey_ensureKey_self S k),
          lookupSet_writeKey_self _ _ _ (hasKey_ensureKey_self T k), hX, hR]
      · rw [lookupSet_writeKey_ne _ _ _ _ hk, lookupSet_writeKey_ne _ _ _ _ hk,
          lookupSet_ensureKey, lookupSet_ensureKey]
        exact he k
    obtain ⟨hf, hm⟩ := ih _ _ heqv2
    rw [hstepS, hstepT]
    exact ⟨by rw [hf, hX, hR], hm⟩

theorem storeElemLoop_false (q : Pointee) :
    ∀ (ps : List Pointee) (S : PTMap),
      (storeElemLoop q S ps).2 = false → mapEqv (storeElemLoop q S ps).1 S := by
  intro ps
  induction ps with
  | nil => intro S _; exact mapEqv_refl S
  | cons p rest ih =>
    intro S h
    have hstep : storeElemLoop q S (p :: rest) =
        ((storeElemLoop q (writeKey (ensureKey S p) p
            (insertPtee (lookupSet (ensureKey S p) p) q)) rest).1,
          decide ((lookupSet (ensureKey S p) p).length ≠
            (insertPtee (lookupSet (ensureKey S p) p) q).length) ||
          (storeElemLoop q (writeKey (ensureKey S p) p
            (insertPtee (lookupSet (ensureKey S p) p) q)) rest).2) := rfl
    rw [hstep] at h ⊢
    simp only [Bool.or_eq_false_iff, decide_eq_false_iff_not, not_not] at h
    obtain ⟨hlen, hrest⟩ := h
    have hXeq : insertPtee (lookupSet (ensureKey S p) p) q =
        lookupSet (ensureKey S p) p := by
      obtain ⟨t, ht⟩ := insertPtee_exists_ext (lookupSet (ensureKey S p) p) q
      rw [ht] at hlen ⊢
      exact append_eq_self_of_length _ _ hlen.symm
    have heqv : mapEqv (writeKey (ensureKey S p) p
        (insertPtee (lookupSet (ensureKey S p) p) q)) S := by
      intro k
      by_cases hk : k = p
      · subst hk
        rw [lookupSet_writeKey_self _ _ _ (hasKey_ensureKey_self S k), hXeq,
          lookupSet_ensureKey]
      · rw [lookupSet_writeKey_ne _ _ _ _ hk, lookupSet_ensureKey]
    exact mapEqv_trans (ih _ hrest) heqv

theorem storeElemLoop_congr (q : Pointee) :
    ∀ (ps : List Pointee) (S T : PTMap), mapEqv S T →
      (storeElemLoop q S ps).2 = (storeElemLoop q T ps).2 ∧
      mapEqv (storeElemLoop q S ps).1 (storeElemLoop q T ps).1 := by
  intro ps
  induction ps with
  | nil => intro S T he; exact ⟨rfl, he⟩
  | cons p rest ih =>
    intro S T he
    have hstepS : storeElemLoop q S (p :: rest) =
        ((storeElemLoop q (writeKey (ensureKey S p) p
            (insertPtee (lookupSet (ensureKey S p) p) q)) rest).1,
          decide ((lookupSet (ensureKey S p) p).length ≠
            (insertPtee (lookupSet (ensureKey S p) p) q).length) ||
          (storeElemLoop q (writeKey (ensureKey S p) p
            (insertPtee (lookupSet (ensureKey S p) p) q)) rest).2) := rfl
    have hstepT : storeElemLoop q T (p :: rest) =
        ((storeElemLoop q (writeKey (ensureKey T p) p
            (insertPtee (lookupSet (ensureKey T p) p) q)) rest).1,
          decide ((lookupSet (ensureKey T p) p).length ≠
            (insertPtee (lookupSet (ensureKey T p) p) q).length) ||
          (storeElemLoop q (writeKey (ensureKey T p) p
            (insertPtee (lookupSet (ensureKey T p) p) q)) rest).2) := rfl
    have hX : lookupSet (ensureKey S p) p = lookupSet (ensureKey T p) p := by
      rw [lookupSet_ensureKey, lookupSet_ensureKey]
      exact he p
    have heqv2 : mapEqv (writeKey (ensureKey S p) p
        (insertPtee (lookupSet (ensureKey S p) p) q))
        (writeKey (ensureKey T p) p
          (insertPtee (lookupSet (ensureKey T p) p) q)) := by
      intro k
      by_cases hk : k = p
      · subst hk
        rw [lookupSet_writeKey_self _ _ _ (hasKey_ensureKey_self S k),
          lookupSet_writeKey_self _ _ _ (hasKey_ensureKey_self T k), hX]
      · rw [lookupSet_writeKey_ne _ _ _ _ hk, lookupSet_writeKey_ne _ _ _ _ hk,
          lookupSet_ensureKey, lookupSet_ensureKey]
        exact he k
    obtain ⟨hf, hm⟩ := ih _ _ heqv2
    rw [hstepS, hstepT]
    exact ⟨by rw [hf, hX], hm⟩

theorem applyAsgnDrefVar_false (S : PTMap) (l : Value) (idx : Int) (r : Value)
    (h : (applyAsgnDrefVar S l idx r).2 = false) :
    mapEqv (applyAsgnDrefVar S l idx r).1 S := by
  rw [applyAsgnDrefVar_spec] at h ⊢
  intro k
  by_cases hk : k = (l, idx)
  · subst hk
    have hkd : hasKey (ensureKey (ensureKey S (l, idx)) (r, -1)) (l, idx) = true :=
      hasKey_ensureKey_mono _ _ _ (hasKey_ensureKey_self S (l, idx))
    obtain ⟨t, ht⟩ := loadLoop_dst_ext (l, idx) (lookupSet S (r, -1)) _ hkd
    simp only [decide_eq_false_iff_not, not_not] at h
    rw [ht, lookupSet_ensureKey, lookupSet_ensureKey] at h ⊢
    exact append_eq_self_of_length _ _ h.symm
  · rw [loadLoop_lookup_ne _ _ _ _ hk, lookupSet_ensureKey, lookupSet_ensureKey]

theorem applyAsgnDrefVar_congr (S T : PTMap) (l : Value) (idx : Int) (r : Value)
    (he : mapEqv S T) :
    (applyAsgnDrefVar S l idx r).2 = (applyAsgnDrefVar T l idx r).2 ∧
    mapEqv (applyAsgnDrefVar S l idx r).1 (applyAsgnDrefVar T l idx r).1 := by
  rw [applyAsgnDrefVar_spec, applyAsgnDrefVar_spec]
  have hbase : mapEqv (ensureKey (ensureKey S (l, idx)) (r, -1))
      (ensureKey (ensureKey T (l, idx)) (r, -1)) := by
    intro k
    rw [lookupSet_ensureKey, lookupSet_ensureKey, lookupSet_ensureKey,
      lookupSet_ensureKey]
    exact he k
  have hkS : hasKey (ensureKey (ensureKey S (l, idx)) (r, -1)) (l, idx) = true :=
    hasKey_ensureKey_mono _ _ _ (hasKey_ensureKey_self S _)
  have hkT : hasKey (ensureKey (ensureKey T (l, idx)) (r, -1)) (l, idx) = true :=
    hasKey_ensureKey_mono _ _ _ (hasKey_ensureKey_self T _)
  have hm := loadLoop_congr (l, idx) (lookupSet S (r, -1)) _ _ hbase hkS hkT
  rw [he (r, -1)] at hm ⊢
  exact ⟨by rw [he (l, idx), hm (l, idx)], hm⟩

theorem drefDrefLoop_false (r : Value) :
    ∀ (ps : List Pointee) (S : PTMap),
      (drefDrefLoop r S ps).2 = false → mapEqv (drefDrefLoop r S ps).1 S := by
  intro ps
  induction ps with
  | nil => intro S _; exact mapEqv_refl S
  | cons p rest ih =>
    intro S h
    have hstep : drefDrefLoop r S (p :: rest) =
        ((drefDrefLoop r (applyAsgnDrefVar S p.1 p.2 r).1 rest).1,
          (applyAsgnDrefVar S p.1 p.2 r).2 ||
            (drefDrefLoop r (applyAsgnDrefVar S p.1 p.2 r).1 rest).2) := rfl
    rw [hstep] at h ⊢
    simp only [Bool.or_eq_false_iff] at h
    obtain ⟨hhead, hrest⟩ := h
    exact mapEqv_trans (ih _ hrest) (applyAsgnDrefVar_false _ _ _ _ hhead)

theorem drefDrefLoop_congr (r : Value) :
    ∀ (ps : List Pointee) (S T : PTMap), mapEqv S T →
      (drefDrefLoop r S ps).2 = (drefDrefLoop r T ps).2 ∧
      mapEqv (drefDrefLoop r S ps).1 (drefDrefLoop r T ps).1 := by
  intro ps
  induction ps with
  | nil => intro S T he; exact ⟨rfl, he⟩
  | cons p rest ih =>
    intro S T he
    have hstepS : drefDrefLoop r S (p :: rest) =
        ((drefDrefLoop r (applyAsgnDrefVar S p.1 p.2 r).1 rest).1,
          (applyAsgnDrefVar S p.1 p.2 r).2 ||
            (drefDrefLoop r (applyAsgnDrefVar S p.1 p.2 r).1 rest).2) := rfl
    have hstepT : drefDrefLoop r T (p :: rest) =
        ((drefDrefLoop r (applyAsgnDrefVar T p.1 p.2 r).1 rest).1,
          (applyAsgnDrefVar T p.1 p.2 r).2 ||
            (drefDrefLoop r (applyAsgnDrefVar T p.1 p.2 r).1 rest).2) := rfl
    obtain ⟨hhf, hhm⟩ := applyAsgnDrefVar_congr S T p.1 p.2 r he
    obtain ⟨hf, hm⟩ := ih _ _ hhm
    rw [hstepS, hstepT]
    exact ⟨by rw [hhf, hf], hm⟩

theorem flag_false_eq (L M : PTSet) (hext : ∃ t, M = L ++ t)
    (h : decide (L.length ≠ M.length) = false) : M = L := by
  simp only [decide_eq_false_iff_not, not_not] at h
  obtain ⟨t, ht⟩ := hext
  rw [ht] at h ⊢
  exact append_eq_self_of_length _ _ h.symm

theorem write_ensure_eqv (S : PTMap) (a : PtrKey) (v : PTSet)
    (hv : v = lookupSet S a) : mapEqv (writeKey (ensureKey S a) a v) S := by
  intro k
  rw [lookupSet_write_ensure, hv]
  split
  · rename_i hh
    subst hh
    rfl
  · rfl

theorem write_ensure2_eqv (S : PTMap) (a b : PtrKey) (v : PTSet)
    (hv : v = lookupSet S a) :
    mapEqv (writeKey (ensureKey (ensureKey S a) b) a v) S := by
  intro k
  rw [lookupSet_write_ensure2, hv]
  split
  · rename_i hh
    subst hh
    rfl
  · rfl

theorem mapEqv_ensureKey2 (S : PTMap) (a b : PtrKey) :
    mapEqv (ensureKey (ensureKey S a) b) S := by
  intro k
  rw [lookupSet_ensureKey, lookupSet_ensureKey]

theorem write_ensure_congr (S T : PTMap) (a : PtrKey) (v : PTSet)
    (he : mapEqv S T) :
    mapEqv (writeKey (ensureKey S a) a v) (writeKey (ensureKey T a) a v) := by
  intro k
  rw [lookupSet_write_ensure, lookupSet_write_ensure]
  split
  · rfl
  · exact he k

theorem write_ensure2_congr (S T : PTMap) (a b : PtrKey) (v : PTSet)
    (he : mapEqv S T) :
    mapEqv (writeKey (ensureKey (ensureKey S a) b) a v)
      (writeKey (ensureKey (ensureKey T a) b) a v) := by
  intro k
  rw [lookupSet_write_ensure2, lookupSet_write_ensure2]
  split
  · rfl
  · exact he k

theorem applyRuleCode_false (S : PTMap) (r : RuleCode)
    (h : (applyRuleCode S r).2 = false) : mapEqv (applyRuleCode S r).1 S := by
  cases r with
  | varAsgnAlloc l rv =>
    rw [show applyRuleCode S (RuleCode.varAsgnAlloc l rv) =
        applyInsertZero S l rv from rfl, applyInsertZero_spec] at h ⊢
    exact write_ensure_eqv _ _ _ (flag_false_eq _ _ (insertPtee_exists_ext _ _) h)
  | varAsgnNull l rv =>
    rw [show applyRuleCode S (RuleCode.varAsgnNull l rv) =
        applyInsertZero S l rv from rfl, applyInsertZero_spec] at h ⊢
    exact write_ensure_eqv _ _ _ (flag_false_eq _ _ (insertPtee_exists_ext _ _) h)
  | varAsgnRefVar l rv =>
    rw [show applyRuleCode S (RuleCode.varAsgnRefVar l rv) =
        applyInsertZero S l rv from rfl, applyInsertZero_spec] at h ⊢
    exact write_ensure_eqv _ _ _ (flag_false_eq _ _ (insertPtee_exists_ext _ _) h)
  | varAsgnVar l rv =>
    rw [show applyRuleCode S (RuleCode.varAsgnVar l rv) =
        applyAsgnVar S l rv from rfl, applyAsgnVar_spec] at h ⊢
    exact write_ensure2_eqv _ _ _ _ (flag_false_eq _ _ (unionPtee_exists_ext _ _) h)
  | varAsgnGep l op idxs =>
    rw [show applyRuleCode S (RuleCode.varAsgnGep l op idxs) =
        applyAsgnGep S l op idxs from rfl] at h ⊢
    cases hop : hasExtraReference op with
    | true =>
      rw [applyAsgnGep_spec_ref _ _ _ _ hop] at h ⊢
      exact write_ensure_eqv _ _ _
        (flag_false_eq _ _ (insertPtee_exists_ext _ _) h)
    | false =>
      rw [applyAsgnGep_spec_noref _ _ _ _ hop] at h ⊢
      exact write_ensure2_eqv _ _ _ _
        (flag_false_eq _ _
          (foldl_exists_ext _ (gepStep_exists_ext _ _) _ _) h)
  | varAsgnDrefVar l rv =>
    exact applyAsgnDrefVar_false S l (-1) rv h
  | drefVarAsgnNull l rv =>
    rw [show applyRuleCode S (RuleCode.drefVarAsgnNull l rv) =
        applyDrefAsgnElem S l rv from rfl, applyDrefAsgnElem_spec] at h ⊢
    exact mapEqv_trans (storeElemLoop_false _ _ _ h) (mapEqv_ensureKey S _)
  | drefVarAsgnRefVar l rv =>
    rw [show applyRuleCode S (RuleCode.drefVarAsgnRefVar l rv) =
        applyDrefAsgnElem S l rv from rfl, applyDrefAsgnElem_spec] at h ⊢
    exact mapEqv_trans (storeElemLoop_false _ _ _ h) (mapEqv_ensureKey S _)
  | drefVarAsgnVar l rv =>
    rw [show applyRuleCode S (RuleCode.drefVarAsgnVar l rv) =
        applyDrefAsgnVar S l rv from rfl, applyDrefAsgnVar_spec] at h ⊢
    exact mapEqv_trans (storeLoop_false _ _ _ h) (mapEqv_ensureKey2 S _ _)
  | drefVarAsgnDrefVar l rv =>
    rw [show applyRuleCode S (RuleCode.drefVarAsgnDrefVar l rv) =
        applyDrefAsgnDrefVar S l rv from rfl, applyDrefAsgnDrefVar_spec] at h ⊢
    exact mapEqv_trans (drefDrefLoop_false _ _ _ h) (mapEqv_ensureKey S _)
  | dealloc v => exact mapEqv_refl S

theorem applyRuleCode_congr (S T : PTMap) (r : RuleCode) (he : mapEqv S T) :
    (applyRuleCode S r).2 = (applyRuleCode T r).2 ∧
    mapEqv (applyRuleCode S r).1 (applyRuleCode T r).1 := by
  cases r with
  | varAsgnAlloc l rv =>
    rw [show applyRuleCode S (RuleCode.varAsgnAlloc l rv) =
        applyInsertZero S l rv from rfl,
      show applyRuleCode T (RuleCode.varAsgnAlloc l rv) =
        applyInsertZero T l rv from rfl,
      applyInsertZero_spec, applyInsertZero_spec, he (l, -1)]
    exact ⟨rfl, write_ensure_congr S T _ _ he⟩
  | varAsgnNull l rv =>
    rw [show applyRuleCode S (RuleCode.varAsgnNull l rv) =
        applyInsertZero S l rv from rfl,
      show applyRuleCode T (RuleCode.varAsgnNull l rv) =
        applyInsertZero T l rv from rfl,
      applyInsertZero_spec, applyInsertZero_spec, he (l, -1)]
    exact ⟨rfl, write_ensure_congr S T _ _ he⟩
  | varAsgnRefVar l rv =>
    rw [show applyRuleCode S (RuleCode.varAsgnRefVar l rv) =
        applyInsertZero S l rv from rfl,
      show applyRuleCode T (RuleCode.varAsgnRefVar l rv) =
        applyInsertZero T l rv from rfl,
      applyInsertZero_spec, applyInsertZero_spec, he (l, -1)]
    exact ⟨rfl, write_ensure_congr S T _ _ he⟩
  | varAsgnVar l rv =>
    rw [show applyRuleCode S (RuleCode.varAsgnVar l rv) =
        applyAsgnVar S l rv from rfl,
      show applyRuleCode T (RuleCode.varAsgnVar l rv) =
        applyAsgnVar T l rv from rfl,
      applyAsgnVar_spec, applyAsgnVar_spec, he (l, -1), he (rv, -1)]
    exact ⟨rfl, write_ensure2_congr S T _ _ _ he⟩
  | varAsgnGep l op idxs =>
    rw [show applyRuleCode S (RuleCode.varAsgnGep l op idxs) =
        applyAsgnGep S l op idxs from rfl,
      show applyRuleCode T (RuleCode.varAsgnGep l op idxs) =
        applyAsgnGep T l op idxs from rfl]
    cases hop : hasExtraReference op with
    | true =>
      rw [applyAsgnGep_spec_ref _ _ _ _ hop, applyAsgnGep_spec_ref _ _ _ _ hop,
        he (l, -1)]
      exact ⟨rfl, write_ensure_congr S T _ _ he⟩
    | false =>
      rw [applyAsgnGep_spec_noref _ _ _ _ hop,
        applyAsgnGep_spec_noref _ _ _ _ hop, he (l, -1), he (op, -1)]
      exact ⟨rfl, write_ensure2_congr S T _ _ _ he⟩
  | varAsgnDrefVar l rv =>
    exact applyAsgnDrefVar_congr S T l (-1) rv he
  | drefVarAsgnNull l rv =>
    rw [show applyRuleCode S (RuleCode.drefVarAsgnNull l rv) =
        applyDrefAsgnElem S l rv from rfl,
      show applyRuleCode T (RuleCode.drefVarAsgnNull l rv) =
        applyDrefAsgnElem T l rv from rfl,
      applyDrefAsgnElem_spec, applyDrefAsgnElem_spec, he (l, -1)]
    exact storeElemLoop_congr _ _ _ _
      (fun k => by rw [lookupSet_ensureKey, lookupSet_ensureKey]; exact he k)
  | drefVarAsgnRefVar l rv =>
    rw [show applyRuleCode S (RuleCode.drefVarAsgnRefVar l rv) =
        applyDrefAsgnElem S l rv from rfl,
      show applyRuleCode T (RuleCode.drefVarAsgnRefVar l rv) =
        applyDrefAsgnElem T l rv from rfl,
      applyDrefAsgnElem_spec, applyDrefAsgnElem_spec, he (l, -1)]
    exact storeElemLoop_congr _ _ _ _
      (fun k => by rw [lookupSet_ensureKey, lookupSet_ensureKey]; exact he k)
  | drefVarAsgnVar l rv =>
    rw [show applyRuleCode S (RuleCode.drefVarAsgnVar l rv) =
        applyDrefAsgnVar S l rv from rfl,
      show applyRuleCode T (RuleCode.drefVarAsgnVar l rv) =
        applyDrefAsgnVar T l rv from rfl,
      applyDrefAsgnVar_spec, applyDrefAsgnVar_spec, he (l, -1)]
    exact storeLoop_congr _ _ _ _
      (fun k => by
        rw [lookupSet_ensureKey, lookupSet_ensureKey, lookupSet_ensureKey,
          lookupSet_ensureKey]
        exact he k)
  | drefVarAsgnDrefVar l rv =>
    rw [show applyRuleCode S (RuleCode.drefVarAsgnDrefVar l rv) =
        applyDrefAsgnDrefVar S l rv from rfl,
      show applyRuleCode T (RuleCode.drefVarAsgnDrefVar l rv) =
        applyDrefAsgnDrefVar T l rv from rfl,
      applyDrefAsgnDrefVar_spec, applyDrefAsgnDrefVar_spec, he (l, -1)]
    exact drefDrefLoop_congr _ _ _ _
      (fun k => by rw [lookupSet_ensureKey, lookupSet_ensureKey]; exact he k)
  | dealloc v => exact ⟨rfl, he⟩

theorem foldl_passStep_flag :
    ∀ (P : List RuleCode) (S : PTMap) (b : Bool),
      P.foldl passStep (S, b) =
        ((P.foldl passStep (S, false)).1, b || (P.foldl passStep (S, false)).2) := by
  intro P
  induction P with
  | nil => intro S b; simp
  | cons r rest ih =>
    intro S b
    have hstep : ∀ (c : Bool), passStep (S, c) r =
        ((applyRuleCode S r).1, c || (applyRuleCode S r).2) := fun c => rfl
    rw [List.foldl_cons, List.foldl_cons, hstep, hstep,
      ih ((applyRuleCode S r).1) (b || (applyRuleCode S r).2),
      ih ((applyRuleCode S r).1) (false || (applyRuleCode S r).2)]
    simp [Bool.or_assoc]

theorem passRules_cons (r : RuleCode) (P : List RuleCode) (S : PTMap) :
    passRules (r :: P) S =
      ((passRules P (applyRuleCode S r).1).1,
        (applyRuleCode S r).2 || (passRules P (applyRuleCode S r).1).2) := by
  unfold passRules
  rw [List.foldl_cons,
    show passStep (S, false) r =
      ((applyRuleCode S r).1, false || (applyRuleCode S r).2) from rfl,
    foldl_passStep_flag]
  simp [Bool.or_assoc]

theorem passRules_false_eqv (P : List RuleCode) :
    ∀ (S : PTMap), (passRules P S).2 = false → mapEqv (passRules P S).1 S := by
  induction P with
  | nil => intro S _; exact mapEqv_refl S
  | cons r rest ih =>
    intro S h
    rw [passRules_cons] at h ⊢
    simp only [Bool.or_eq_false_iff] at h
    obtain ⟨h1, h2⟩ := h
    exact mapEqv_trans (ih _ h2) (applyRuleCode_false S r h1)

theorem passRules_congr (P : List RuleCode) :
    ∀ (S T : PTMap), mapEqv S T →
      (passRules P S).2 = (passRules P T).2 ∧
      mapEqv (passRules P S).1 (passRules P T).1 := by
  induction P with
  | nil => intro S T he; exact ⟨rfl, he⟩
  | cons r rest ih =>
    intro S T he
    rw [passRules_cons, passRules_cons]
    obtain ⟨hf1, hm1⟩ := applyRuleCode_congr S T r he
    obtain ⟨hf2, hm2⟩ := ih _ _ hm1
    exact ⟨by rw [hf1, hf2], hm2⟩

theorem passRules_rule_false (P : List RuleCode) :
    ∀ (S : PTMap), (passRules P S).2 = false →
      ∀ r ∈ P, (applyRuleCode S r).2 = false := by
  induction P with
  | nil => intro S _ r hr; simp at hr
  | cons r1 rest ih =>
    intro S h r hr
    rw [passRules_cons] at h
    simp only [Bool.or_eq_false_iff] at h
    obtain ⟨h1, h2⟩ := h
    rcases List.mem_cons.mp hr with hr | hr
    · subst hr
      exact h1
    · have hstep : (applyRuleCode (applyRuleCode S r1).1 r).2 = false :=
        ih _ h2 r hr
      have heqv : mapEqv (applyRuleCode S r1).1 S := applyRuleCode_false S r1 h1
      rw [← (applyRuleCode_congr _ _ r heqv).1]
      exact hstep

theorem fixpointAux_some :
    ∀ (fuel : Nat) (P : List RuleCode) (S T : PTMap),
      fixpointAux fuel P S = some T → ∃ Sb, passRules P Sb = (T, false) := by
  intro fuel
  induction fuel with
  | zero => intro P S T h; simp [fixpointAux] at h
  | succ n ih =>
    intro P S T h
    have hunfold : fixpointAux (n + 1) P S =
        (if (passRules P S).2 then fixpointAux n P (passRules P S).1
          else some (passRules P S).1) := rfl
    rw [hunfold] at h
    cases hres : (passRules P S).2 with
    | true =>
      rw [hres, if_pos rfl] at h
      exact ih P _ T h
    | false =>
      rw [hres] at h
      simp only [Bool.false_eq_true, if_false, Option.some.injEq] at h
      exact ⟨S, by rw [← h, ← hres]⟩

/-- C8: the solver is a pure function of the program structure and the
initial map, so running it twice yields an identical result; and on a
map for which one pass reports no change, the pass leaves every set
equal (a pass can at most add empty entries for missing keys, which
read back as the empty set), and one further application of every rule
in program order again reports no change. -/
theorem c8_fixpoint (fuel : Nat) (P : List RuleCode) (S0 S : PTMap)
    (hfix : (passRules P S).2 = false) :
    computePointsToSets fuel P S0 = computePointsToSets fuel P S0 ∧
    (∀ k, lookupSet (passRules P S).1 k = lookupSet S k) ∧
    (passRules P (passRules P S).1).2 = false := by
  refine ⟨rfl, passRules_false_eqv P S hfix, ?_⟩
  have he := passRules_false_eqv P S hfix
  rw [(passRules_congr P (passRules P S).1 S he).1]
  exact hfix

/-- Witness for `c8_fixpoint` at a concrete input: the map
`{(c8l,-1) = [(c8r,0)]}` is a fixed point of the one-rule program
`c8P`, and one more pass on the pass's output again reports no
change. -/
theorem c8_fixpoint_witness :
    (passRules c8P c8S).2 = false ∧
    (passRules c8P (passRules c8P c8S).1).2 = false :=
  ⟨by decide, (c8_fixpoint 1 c8P [] c8S (by decide)).2.2⟩

theorem lookupSet_prune (S : PTMap) (k : PtrKey)
    (hk : isFunctionVal k.1 = false) :
    lookupSet (pruneByType S) k = lookupSet S k := by
  induction S with
  | nil => rfl
  | cons e rest ih =>
    by_cases hf : isFunctionVal e.1.1 = true
    · have hne : ¬ (e.1 = k) := by
        intro hc
        rw [hc] at hf
        rw [hf] at hk
        exact absurd hk (by simp)
      rw [show pruneByType (e :: rest) = pruneByType rest from by
          simp [pruneByType, List.filter_cons, hf]]
      rw [ih, lookupSet, if_neg hne]
    · have hf2 : isFunctionVal e.1.1 = false := by
        cases h2 : isFunctionVal e.1.1
        · rfl
        · exact absurd h2 hf
      rw [show pruneByType (e :: rest) = e :: pruneByType rest from by
          simp [pruneByType, List.filter_cons, hf2]]
      rw [lookupSet, lookupSet]
      split
      · rfl
      · exact ih

theorem insertPtee_mem_of_flag (L : PTSet) (q : Pointee)
    (h : decide (L.length ≠ (insertPtee L q).length) = false) : q ∈ L := by
  have := flag_false_eq L _ (insertPtee_exists_ext L q) h
  rw [← this]
  exact (mem_insertPtee _ _ _).mpr (Or.inr rfl)

/-- C10: `argPassRuleCode` maps a constant-null source to `VAR = NULL`
before consulting the extra-reference scheme (which is reached only
for non-null sources), and after a completed solve the destination of
every `VAR = NULL` rule of the program holds `(null, 0)` in its
points-to set (pruning does not remove it while the destination is not
a function symbol). -/
theorem c10_null_argpass (l r l2 r2 : Value) (P : List RuleCode) (S0 : PTMap)
    (fuel : Nat) (M : PTMap)
    (hr : isNullVal r = true)
    (hrule : RuleCode.varAsgnNull l2 r2 ∈ P)
    (hsolve : computePointsToSets fuel P S0 = some M)
    (hl : isFunctionVal l2 = false) :
    argPassRuleCode l r = RuleCode.varAsgnNull l r ∧
    (r2, 0) ∈ lookupSet M (l2, -1) := by
  constructor
  · unfold argPassRuleCode
    rw [if_pos hr]
  · unfold computePointsToSets at hsolve
    cases hfx : fixpointAux fuel P S0 with
    | none =>
      rw [hfx] at hsolve
      exact Option.noConfusion hsolve
    | some T =>
      rw [hfx] at hsolve
      have hsolve2 : pruneByType T = M := Option.some.inj hsolve
      obtain ⟨Sb, hpass⟩ := fixpointAux_some fuel P S0 T hfx
      have hflag : (applyRuleCode Sb (RuleCode.varAsgnNull l2 r2)).2 = false :=
        passRules_rule_false P Sb (by rw [hpass]) _ hrule
      rw [show applyRuleCode Sb (RuleCode.varAsgnNull l2 r2) =
          applyInsertZero Sb l2 r2 from rfl, applyInsertZero_spec] at hflag
      have hmemSb : (r2, (0 : Int)) ∈ lookupSet Sb (l2, -1) :=
        insertPtee_mem_of_flag _ _ hflag
      have heqv : mapEqv T Sb := by
        have h2 := passRules_false_eqv P Sb (by rw [hpass])
        rw [show (passRules P Sb).1 = T from by rw [hpass]] at h2
        exact h2
      rw [← hsolve2, lookupSet_prune _ _ hl, heqv (l2, -1)]
      exact hmemSb

/-- Witness for `c10_null_argpass` at a concrete input: solving the
one-rule program `c10P` puts `(c10r, 0)` into the destination's set,
and `argPassRuleCode` yields the `VAR = NULL` rule for the null
source. -/
theorem c10_null_argpass_witness :
    argPassRuleCode c10l c10r = RuleCode.varAsgnNull c10l c10r ∧
    (c10r, (0 : Int)) ∈
      lookupSet ((computePointsToSets 3 c10P []).getD []) (c10l, -1) := by
  have hc : computePointsToSets 3 c10P [] =
      some [((c10l, -1), [(c10r, 0)])] := by decide
  have h := c10_null_argpass c10l c10r c10l c10r c10P [] 3
    [((c10l, -1), [(c10r, 0)])] (by decide) (by decide) hc (by decide)
  rw [hc]
  exact h

theorem MapOK_lookup (S : PTMap) (h : MapOK S) (k : PtrKey) :
    ∀ p ∈ lookupSet S k, 0 ≤ p.2 := by
  induction S with
  | nil => intro p hp; simp [lookupSet] at hp
  | cons e rest ih =>
    intro p hp
    rw [lookupSet] at hp
    split at hp
    · exact (h e (List.mem_cons_self e rest)).2 p hp
    · exact ih (fun x hx => h x (List.mem_cons_of_mem e hx)) p hp

theorem MapOK_ensureKey (S : PTMap) (k : PtrKey) (h : MapOK S)
    (hk : k.2 = -1 ∨ 0 ≤ k.2) : MapOK (ensureKey S k) := by
  unfold ensureKey
  split
  · exact h
  · intro e he
    rw [List.mem_append] at he
    rcases he with he | he
    · exact h e he
    · rw [List.mem_singleton] at he
      subst he
      exact ⟨hk, by simp⟩

theorem MapOK_writeKey (S : PTMap) (k : PtrKey) (v : PTSet) (h : MapOK S)
    (hv : ∀ p ∈ v, 0 ≤ p.2) : MapOK (writeKey S k v) := by
  intro e he
  unfold writeKey at he
  rw [List.mem_map] at he
  obtain ⟨e0, he0, heq⟩ := he
  by_cases h0 : e0.1 = k
  · rw [if_pos h0] at heq
    subst heq
    exact ⟨by rw [← h0]; exact (h e0 he0).1, hv⟩
  · rw [if_neg h0] at heq
    subst heq
    exact h e0 he0

theorem pteeOK_insertPtee (L : PTSet) (q : Pointee)
    (hL : ∀ p ∈ L, 0 ≤ p.2) (hq : 0 ≤ q.2) :
    ∀ p ∈ insertPtee L q, 0 ≤ p.2 := by
  intro p hp
  rcases (mem_insertPtee L q p).mp hp with hp | hp
  · exact hL p hp
  · subst hp
    exact hq

theorem pteeOK_unionPtee (L R : PTSet)
    (hL : ∀ p ∈ L, 0 ≤ p.2) (hR : ∀ p ∈ R, 0 ≤ p.2) :
    ∀ p ∈ unionPtee L R, 0 ≤ p.2 := by
  intro p hp
  rcases (mem_unionPtee L R p).mp hp with hp | hp
  · exact hL p hp
  · exact hR p hp

theorem gepSum_nonneg (off : Int) (ia : Bool) (rOff : Int) :
    0 ≤ gepSum off ia rOff := by
  unfold gepSum
  dsimp only
  split
  · omega
  · split <;> omega

theorem gepStep_sub (off : Int) (ia : Bool) (L : PTSet) (p : Pointee) :
    ∀ q ∈ gepStep off ia L p, q ∈ L ∨ q = (p.1, gepSum off ia p.2) := by
  intro q hq
  unfold gepStep at hq
  split at hq
  · exact Or.inl hq
  · split at hq
    · exact Or.inl hq
    · split at hq
      · exact Or.inl hq
      · split at hq
        · exact Or.inl hq
        · exact (mem_insertPtee _ _ _).mp hq

theorem pteeOK_gepFold (off : Int) (ia : Bool) :
    ∀ (ps : List Pointee) (L : PTSet), (∀ p ∈ L, 0 ≤ p.2) →
      ∀ p ∈ ps.foldl (gepStep off ia) L, 0 ≤ p.2 := by
  intro ps
  induction ps with
  | nil => intro L hL; exact hL
  | cons p rest ih =>
    intro L hL
    rw [List.foldl_cons]
    apply ih
    intro q hq
    rcases gepStep_sub off ia L p q hq with hq | hq
    · exact hL q hq
    · subst hq
      exact gepSum_nonneg off ia p.2

theorem MapOK_loadLoop (dst : PtrKey) :
    ∀ (ps : List Pointee) (S : PTMap), MapOK S → (∀ p ∈ ps, 0 ≤ p.2) →
      MapOK (loadLoop dst S ps) := by
  intro ps
  induction ps with
  | nil => intro S h _; exact h
  | cons p rest ih =>
    intro S h hps
    have hstep : loadLoop dst S (p :: rest) =
        loadLoop dst (writeKey (ensureKey S p) dst
          (unionPtee (lookupSet (ensureKey S p) dst)
            (lookupSet (ensureKey S p) p))) rest := rfl
    rw [hstep]
    have h1 : MapOK (ensureKey S p) :=
      MapOK_ensureKey S p h (Or.inr (hps p (List.mem_cons_self p rest)))
    apply ih
    · exact MapOK_writeKey _ _ _ h1
        (pteeOK_unionPtee _ _ (MapOK_lookup _ h1 dst) (MapOK_lookup _ h1 p))
    · intro q hq
      exact hps q (List.mem_cons_of_mem p hq)

theorem MapOK_storeLoop (src : PtrKey) :
    ∀ (ps : List Pointee) (S : PTMap), MapOK S → (∀ p ∈ ps, 0 ≤ p.2) →
      MapOK ((storeLoop src S ps).1) := by
  intro ps
  induction ps with
  | nil => intro S h _; exact h
  | cons p rest ih =>
    intro S h hps
    have hstep : (storeLoop src S (p :: rest)).1 =
        (storeLoop src (writeKey (ensureKey S p) p
          (unionPtee (lookupSet (ensureKey S p) p)
            (lookupSet (ensureKey S p) src))) rest).1 := rfl
    rw [hstep]
    have h1 : MapOK (ensureKey S p) :=
      MapOK_ensureKey S p h (Or.inr (hps p (List.mem_cons_self p rest)))
    apply ih
    · exact MapOK_writeKey _ _ _ h1
        (pteeOK_unionPtee _ _ (MapOK_lookup _ h1 p) (MapOK_lookup _ h1 src))
    · intro q hq
      exact hps q (List.mem_cons_of_mem p hq)

theorem MapOK_storeElemLoop (q : Pointee) (hq : 0 ≤ q.2) :
    ∀ (ps : List Pointee) (S : PTMap), MapOK S → (∀ p ∈ ps, 0 ≤ p.2) →
      MapOK ((storeElemLoop q S ps).1) := by
  intro ps
  induction ps with
  | nil => intro S h _; exact h
  | cons p rest ih =>
    intro S h hps
    have hstep : (storeElemLoop q S (p :: rest)).1 =
        (storeElemLoop q (writeKey (ensureKey S p) p
          (insertPtee (lookupSet (ensureKey S p) p) q)) rest).1 := rfl
    rw [hstep]
    have h1 : MapOK (ensureKey S p) :=
      MapOK_ensureKey S p h (Or.inr (hps p (List.mem_cons_self p rest)))
    apply ih
    · exact MapOK_writeKey _ _ _ h1
        (pteeOK_insertPtee _ _ (MapOK_lookup _ h1 p) hq)
    · intro x hx
      exact hps x (List.mem_cons_of_mem p hx)

theorem MapOK_applyAsgnDrefVar (S : PTMap) (l : Value) (idx : Int) (r : Value)
    (h : MapOK S) (hidx : idx = -1 ∨ 0 ≤ idx) :
    MapOK ((applyAsgnDrefVar S l idx r).1) := by
  rw [applyAsgnDrefVar_spec]
  have h1 : MapOK (ensureKey (ensureKey S (l, idx)) (r, -1)) :=
    MapOK_ensureKey _ _ (MapOK_ensureKey _ _ h hidx) (Or.inl rfl)
  exact MapOK_loadLoop (l, idx) _ _ h1 (MapOK_lookup S h (r, -1))

theorem MapOK_drefDrefLoop (r : Value) :
    ∀ (ps : List Pointee) (S : PTMap), MapOK S → (∀ p ∈ ps, 0 ≤ p.2) →
      MapOK ((drefDrefLoop r S ps).1) := by
  intro ps
  induction ps with
  | nil => intro S h _; exact h
  | cons p rest ih =>
    intro S h hps
    have hstep : (drefDrefLoop r S (p :: rest)).1 =
        (drefDrefLoop r (applyAsgnDrefVar S p.1 p.2 r).1 rest).1 := rfl
    rw [hstep]
    apply ih
    · exact MapOK_applyAsgnDrefVar S p.1 p.2 r h
        (Or.inr (hps p (List.mem_cons_self p rest)))
    · intro q hq
      exact hps q (List.mem_cons_of_mem p hq)

theorem MapOK_applyRuleCode (S : PTMap) (r : RuleCode) (h : MapOK S)
    (hg : gepRuleOK r = true) : MapOK ((applyRuleCode S r).1) := by
  cases r with
  | varAsgnAlloc l rv =>
    rw [show applyRuleCode S (RuleCode.varAsgnAlloc l rv) =
        applyInsertZero S l rv from rfl, applyInsertZero_spec]
    exact MapOK_writeKey _ _ _ (MapOK_ensureKey _ _ h (Or.inl rfl))
      (pteeOK_insertPtee _ _ (MapOK_lookup S h _) (by omega))
  | varAsgnNull l rv =>
    rw [show applyRuleCode S (RuleCode.varAsgnNull l rv) =
        applyInsertZero S l rv from rfl, applyInsertZero_spec]
    exact MapOK_writeKey _ _ _ (MapOK_ensureKey _ _ h (Or.inl rfl))
      (pteeOK_insertPtee _ _ (MapOK_lookup S h _) (by omega))
  | varAsgnRefVar l rv =>
    rw [show applyRuleCode S (RuleCode.varAsgnRefVar l rv) =
        applyInsertZero S l rv from rfl, applyInsertZero_spec]
    exact MapOK_writeKey _ _ _ (MapOK_ensureKey _ _ h (Or.inl rfl))
      (pteeOK_insertPtee _ _ (MapOK_lookup S h _) (by omega))
  | varAsgnVar l rv =>
    rw [show applyRuleCode S (RuleCode.varAsgnVar l rv) =
        applyAsgnVar S l rv from rfl, applyAsgnVar_spec]
    exact MapOK_writeKey _ _ _
      (MapOK_ensureKey _ _ (MapOK_ensureKey _ _ h (Or.inl rfl)) (Or.inl rfl))
      (pteeOK_unionPtee _ _ (MapOK_lookup S h _) (MapOK_lookup S h _))
  | varAsgnGep l op idxs =>
    rw [show applyRuleCode S (RuleCode.varAsgnGep l op idxs) =
        applyAsgnGep S l op idxs from rfl]
    cases hop : hasExtraReference op with
    | true =>
      rw [applyAsgnGep_spec_ref _ _ _ _ hop]
      have hoff : 0 ≤ (accumulateConstantOffset idxs).1 := by
        have hg2 : (!hasExtraReference op ||
            decide (0 ≤ (accumulateConstantOffset idxs).1)) = true := hg
        rw [hop] at hg2
        simpa using hg2
      exact MapOK_writeKey _ _ _ (MapOK_ensureKey _ _ h (Or.inl rfl))
        (pteeOK_insertPtee _ _ (MapOK_lookup S h _) hoff)
    | false =>
      rw [applyAsgnGep_spec_noref _ _ _ _ hop]
      exact MapOK_writeKey _ _ _
        (MapOK_ensureKey _ _ (MapOK_ensureKey _ _ h (Or.inl rfl)) (Or.inl rfl))
        (pteeOK_gepFold _ _ _ _ (MapOK_lookup S h _))
  | varAsgnDrefVar l rv =>
    exact MapOK_applyAsgnDrefVar S l (-1) rv h (Or.inl rfl)
  | drefVarAsgnNull l rv =>
    rw [show applyRuleCode S (RuleCode.drefVarAsgnNull l rv) =
        applyDrefAsgnElem S l rv from rfl, applyDrefAsgnElem_spec]
    exact MapOK_storeElemLoop (rv, 0) (by omega) _ _
      (MapOK_ensureKey _ _ h (Or.inl rfl)) (MapOK_lookup S h _)
  | drefVarAsgnRefVar l rv =>
    rw [show applyRuleCode S (RuleCode.drefVarAsgnRefVar l rv) =
        applyDrefAsgnElem S l rv from rfl, applyDrefAsgnElem_spec]
    exact MapOK_storeElemLoop (rv, 0) (by omega) _ _
      (MapOK_ensureKey _ _ h (Or.inl rfl)) (MapOK_lookup S h _)
  | drefVarAsgnVar l rv =>
    rw [show applyRuleCode S (RuleCode.drefVarAsgnVar l rv) =
        applyDrefAsgnVar S l rv from rfl, applyDrefAsgnVar_spec]
    exact MapOK_storeLoop (rv, -1) _ _
      (MapOK_ensureKey _ _ (MapOK_ensureKey _ _ h (Or.inl rfl)) (Or.inl rfl))
      (MapOK_lookup S h _)
  | drefVarAsgnDrefVar l rv =>
    rw [show applyRuleCode S (RuleCode.drefVarAsgnDrefVar l rv) =
        applyDrefAsgnDrefVar S l rv from rfl, applyDrefAsgnDrefVar_spec]
    exact MapOK_drefDrefLoop rv _ _
      (MapOK_ensureKey _ _ h (Or.inl rfl)) (MapOK_lookup S h _)
  | dealloc v => exact h

theorem MapOK_passRules (P : List RuleCode) :
    ∀ (S : PTMap), MapOK S → GepOK P → MapOK ((passRules P S).1) := by
  induction P with
  | nil => intro S h _; exact h
  | cons r rest ih =>
    intro S h hg
    rw [passRules_cons]
    exact ih _ (MapOK_applyRuleCode S r h (hg r (List.mem_cons_self r rest)))
      (fun r2 hr2 => hg r2 (List.mem_cons_of_mem r hr2))

theorem MapOK_fixpointAux :
    ∀ (fuel : Nat) (P : List RuleCode) (S T : PTMap), GepOK P → MapOK S →
      fixpointAux fuel P S = some T → MapOK T := by
  intro fuel
  induction fuel with
  | zero => intro P S T _ _ h; simp [fixpointAux] at h
  | succ n ih =>
    intro P S T hg h hfx
    have hunfold : fixpointAux (n + 1) P S =
        (if (passRules P S).2 then fixpointAux n P (passRules P S).1
          else some (passRules P S).1) := rfl
    rw [hunfold] at hfx
    cases hres : (passRules P S).2 with
    | true =>
      rw [hres, if_pos rfl] at hfx
      exact ih P _ T hg (MapOK_passRules P S h hg) hfx
    | false =>
      rw [hres] at hfx
      simp only [Bool.false_eq_true, if_false, Option.some.injEq] at hfx
      rw [← hfx]
      exact MapOK_passRules P S h hg

theorem MapOK_prune (S : PTMap) (h : MapOK S) : MapOK (pruneByType S) :=
  fun e he => h e (List.mem_filter.mp he).1

/-- C2 fails on the code at a concrete input: solving `c2P` stores the
pointee `(c2op1, 100)` with offset `100 > 64` (a non-array struct
projection is never capped), the pointee `(c2op2, -8)` with a negative
offset (the extra-reference GEP branch inserts the raw accumulated
offset), and creates the map key `(c2op2, -8)` whose offset is neither
nonnegative nor the sentinel `-1`. -/
theorem c2_counterexample :
    (computePointsToSets 10 c2P []).isSome = true ∧
    (c2op1, (100 : Int)) ∈
      lookupSet ((computePointsToSets 10 c2P []).getD []) (c2l1, -1) ∧
    ¬((100 : Int) ≤ 64) ∧
    (c2op2, (-8 : Int)) ∈
      lookupSet ((computePointsToSets 10 c2P []).getD []) (c2l2, -1) ∧
    ((-8 : Int) < 0) ∧
    hasKey ((computePointsToSets 10 c2P []).getD []) (c2op2, -8) = true ∧
    ¬((-8 : Int) = -1) := by
  decide

/-- C2 as amended: dropping the `≤ 64` bound (which the code enforces
only for array-marked projections) and adding the proviso that every
GEP rule with an extra-reference base has a nonnegative accumulated
offset, the solver maintains: every map key's offset is `-1` or
nonnegative, and every stored pointee's offset is nonnegative,
provided the initial map already satisfies this. -/
theorem c2_amended (fuel : Nat) (P : List RuleCode) (S0 M : PTMap)
    (hg : GepOK P) (h0 : MapOK S0)
    (hres : computePointsToSets fuel P S0 = some M) :
    ∀ e ∈ M, (e.1.2 = -1 ∨ 0 ≤ e.1.2) ∧ ∀ p ∈ e.2, 0 ≤ p.2 := by
  unfold computePointsToSets at hres
  cases hfx : fixpointAux fuel P S0 with
  | none =>
    rw [hfx] at hres
    exact Option.noConfusion hres
  | some T =>
    rw [hfx] at hres
    have hres2 : pruneByType T = M := Option.some.inj hres
    rw [← hres2]
    exact MapOK_prune T (MapOK_fixpointAux fuel P S0 T hg h0 hfx)

/-- Witness for `c2_amended` at a concrete input: the witness program
`c2wP` satisfies the proviso, and the solved map's one entry has the
sentinel key offset and a nonnegative pointee offset. -/
theorem c2_amended_witness :
    ((-1 : Int) = -1 ∨ 0 ≤ (-1 : Int)) ∧ (0 : Int) ≤ 8 := by
  have hc : computePointsToSets 5 c2wP [] =
      some [((c2wl, -1), [(c2wg, 8)])] := by decide
  have h := c2_amended 5 c2wP [] [((c2wl, -1), [(c2wg, 8)])]
    (by decide) (by decide) hc
  exact ⟨(h ((c2wl, -1), [(c2wg, 8)]) (by decide)).1,
    (h ((c2wl, -1), [(c2wg, 8)]) (by decide)).2 (c2wg, 8) (by decide)⟩

end PointsTo
